import Mathlib

/-!
Verification of the FactorioMultiplayerCacher proxy pair.

Shallow embedding of `src/proxy/server_proxy.rs` and
`src/proxy/client_proxy.rs`.  Packets are byte lists (`List Nat`).
Machine integers (`u32`) are modelled as `Nat` with an explicit `% 2^32`
wherever the Rust arithmetic can wrap.  Instants are modelled as `Nat`
millisecond timestamps; every handler receives the current time `now` as an
argument and `Instant::now()` inside the Rust code becomes that argument.

The modules `factorio_protocol.rs`, `dedup.rs`, `protocol.rs` and
`chunk_cache.rs` of the repository are not available; the few definitions
the proxies need from them (packet header and packet codecs, the
`MapReadyForDownloadData` record, the world-description record) are
modelled from the specification and are marked `Modelled from the spec:`
in their doc comments.  The world deconstruction function and the BLAKE3
hash are taken as parameters of the functions that call them.
-/

/-! ## Byte-level utilities -/

/-- Little-endian encoding of a `u32` value as four bytes. -/
def u32ToLe (n : Nat) : List Nat :=
  [n % 256, n / 256 % 256, n / 65536 % 256, n / 16777216 % 256]

/-- Little-endian decoding of four bytes into a `u32` value. -/
def leToU32 (a b c d : Nat) : Nat :=
  a + 256 * b + 65536 * c + 16777216 * d

/-- The `u32` modulus. -/
def u32Mod : Nat := 4294967296

/-! ## Game protocol records and codecs

Modelled from the spec: `factorio_protocol.rs` is not part of `src/`; the
spec (§6, "Game protocol recognition") pins down exactly what the proxy
parses: a 1-byte packet type / flags header,
`TransferBlockRequest { block_id: u32 }`,
`TransferBlock { block_id: u32, data }`, and a heartbeat carrying a
`MapReadyForDownload { world_size: u32, aux_size: u32, world_crc: u32,
… opaque … }` record.  Numeric type codes and the heartbeat's framing are
out of scope of the spec, so concrete values are chosen here; no theorem
depends on the particular codes, only on their distinctness. -/

/-- Packet types the proxy recognizes; every other type byte is `other`. -/
inductive PacketType where
  | ServerToClientHeartbeat : PacketType
  | TransferBlockRequest : PacketType
  | TransferBlock : PacketType
  | other : Nat → PacketType
deriving DecidableEq, Repr

/-- Modelled from the spec: the packet type lives in the low five bits of
the first byte (the remaining bits are flags).  The concrete codes are a
modelling choice. -/
def packetTypeOfByte (b : Nat) : PacketType :=
  if b % 32 = 7 then .ServerToClientHeartbeat
  else if b % 32 = 11 then .TransferBlockRequest
  else if b % 32 = 12 then .TransferBlock
  else .other (b % 32)

/-- The decoded packet header: just the packet type. -/
structure FactorioPacketHeader where
  packet_type : PacketType
deriving DecidableEq, Repr

/-- Modelled from the spec: decoding the 1-byte header splits a packet
into its header and its message payload; a packet with no bytes has no
header and fails to decode. -/
def FactorioPacketHeader.decode (data : List Nat) :
    Option (FactorioPacketHeader × List Nat) :=
  match data with
  | [] => none
  | b :: rest => some (⟨packetTypeOfByte b⟩, rest)

/-- The game's world-announcement record (spec §3 `MapReadyInfo`):
`world_size`, `aux_size` and `world_crc` are `u32` fields; the remaining
fields are retained verbatim as an opaque byte list. -/
structure MapReadyForDownloadData where
  world_size : Nat
  aux_size : Nat
  world_crc : Nat
  extra : List Nat
deriving DecidableEq, Repr

/-- Modelled from the spec: the record encodes as the three `u32` fields in
declared order, little endian, followed by the opaque bytes. -/
def MapReadyForDownloadData.encode (d : MapReadyForDownloadData) : List Nat :=
  u32ToLe d.world_size ++ u32ToLe d.aux_size ++ u32ToLe d.world_crc ++ d.extra

/-- Modelled from the spec: decoding a `MapReadyForDownloadData` record
needs at least the twelve bytes of the three `u32` fields; the remainder
is the opaque tail. -/
def MapReadyForDownloadData.decode (data : List Nat) :
    Option MapReadyForDownloadData :=
  match data with
  | a0 :: a1 :: a2 :: a3 :: b0 :: b1 :: b2 :: b3 :: c0 :: c1 :: c2 :: c3 :: rest =>
      some ⟨leToU32 a0 a1 a2 a3, leToU32 b0 b1 b2 b3, leToU32 c0 c1 c2 c3, rest⟩
  | _ => none

/-- Modelled from the spec: composition of
`ServerToClientHeartbeatPacket::decode` and `try_decode_map_ready`.  A
heartbeat body starts with a flag byte; flag `1` announces an embedded
`MapReadyForDownloadData` record occupying the rest of the body.
`none` is a decode error, `some none` a heartbeat without the record. -/
def tryDecodeMapReady (msg : List Nat) :
    Option (Option MapReadyForDownloadData) :=
  match msg with
  | [] => none
  | flag :: rest =>
      if flag = 1 then
        match MapReadyForDownloadData.decode rest with
        | some info => some (some info)
        | none => none
      else some none

/-- `TransferBlock { block_id: u32, data }` (spec §3). -/
structure TransferBlockPacket where
  block_id : Nat
  data : List Nat
deriving DecidableEq, Repr

/-- Modelled from the spec: a transfer block body is a little-endian
`u32` block id followed by the block bytes. -/
def TransferBlockPacket.decode (msg : List Nat) : Option TransferBlockPacket :=
  match msg with
  | a :: b :: c :: d :: rest => some ⟨leToU32 a b c d, rest⟩
  | _ => none

/-- Modelled from the spec: `encode_full_packet` prepends the type byte. -/
def TransferBlockPacket.encode_full_packet (p : TransferBlockPacket) : List Nat :=
  12 :: (u32ToLe p.block_id ++ p.data)

/-- `TransferBlockRequest { block_id: u32 }` (spec §3). -/
structure TransferBlockRequestPacket where
  block_id : Nat
deriving DecidableEq, Repr

/-- Modelled from the spec: the request body starts with the little-endian
`u32` block id. -/
def TransferBlockRequestPacket.decode (msg : List Nat) :
    Option TransferBlockRequestPacket :=
  match msg with
  | a :: b :: c :: d :: _ => some ⟨leToU32 a b c d⟩
  | _ => none

/-- Modelled from the spec: `encode_full_packet` prepends the type byte. -/
def TransferBlockRequestPacket.encode_full_packet (p : TransferBlockRequestPacket) :
    List Nat :=
  11 :: u32ToLe p.block_id

/-- Modelled from the spec ("size `B`, e.g. 503 bytes per the game"): the
transfer-block size constant from `factorio_protocol.rs`. -/
def TRANSFER_BLOCK_SIZE : Nat := 503

/-! ## Sorted-set model of `BTreeSet<u32>`

The Rust code keeps `block_request_queue` and `inflight_block_requests` in
`BTreeSet<u32>`.  A `BTreeSet` is modelled as a strictly sorted duplicate-free
`List Nat`; `pop_first` is `head`, `insert` is sorted insertion, `remove` is
`List.erase`. -/

/-- Sorted duplicate-free insertion, modelling `BTreeSet::insert`. -/
def insertSorted (x : Nat) : List Nat → List Nat
  | [] => [x]
  | y :: ys =>
      if x < y then x :: y :: ys
      else if x = y then y :: ys
      else y :: insertSorted x ys

/-! ## Server proxy (`src/proxy/server_proxy.rs`) -/

/-- Direction of an outgoing packet (`PacketDirection` in `proxy/mod.rs`). -/
inductive PacketDirection where
  | ToClient : PacketDirection
  | ToServer : PacketDirection
deriving DecidableEq, Repr

/-- An outgoing packet paired with its direction, as pushed on `out_packets`. -/
abbrev OutPacket := List Nat × PacketDirection

/-- Modelled from the spec: the `FactorioWorldDescription` produced by
`dedup::deconstruct_world` (`dedup.rs` is not in `src/`).  Only the fields
the server proxy reads are modelled (spec §3 `WorldDescription`):
`world_size` and `reconstructed_crc` feed the rewritten announcement record,
`original_world_size` is used for statistics. -/
structure FactorioWorldDescription where
  world_size : Nat
  reconstructed_crc : Nat
  original_world_size : Nat
deriving DecidableEq, Repr

/-- The world deconstruction routine `dedup::deconstruct_world` lives in
`dedup.rs`, which is not in `src/`; the proxy state machine is parametrized
over it.  It receives the world bytes and the aux bytes and either fails
(`none`) or yields the description of the deconstructed world. -/
abbrev DeconstructFn := List Nat → List Nat → Option FactorioWorldDescription

/-- `DownloadingWorldState` from `server_proxy.rs` (the
`download_start_time` field is only used for logging and is omitted;
`last_block_time` is a millisecond timestamp). -/
structure DownloadingWorldState where
  world_info : MapReadyForDownloadData
  world_block_count : Nat
  held_packets : List (List Nat)
  received_blocks : List TransferBlockPacket
  block_request_queue : List Nat
  inflight_block_requests : List Nat
  last_block_time : Nat
deriving DecidableEq, Repr

/-- `ServerProxyPhase` from `server_proxy.rs`.  The `comp_stream` handle of
`ServerProxyState` is an opaque QUIC stream pair and is not modelled; the
spawning of the transfer task that consumes it is recorded in the step
result instead. -/
inductive ServerProxyPhase where
  | WaitingForWorld : ServerProxyPhase
  | DownloadingWorld : DownloadingWorldState → ServerProxyPhase
  | Done : ServerProxyPhase
deriving DecidableEq, Repr

/-- Result of one `on_packet_from_server` call: the new phase, the packets
pushed on `out_packets`, and — when the success path of `finalize_world`
spawned the `transfer_world_data` task — the world description handed to
that task. -/
structure StepResult where
  phase : ServerProxyPhase
  out : List OutPacket
  spawned : Option FactorioWorldDescription
deriving DecidableEq, Repr

/-- `ServerProxyState::INFLIGHT_BLOCK_REQUEST_LIMIT`. -/
def INFLIGHT_BLOCK_REQUEST_LIMIT : Nat := 16

/-- The loop body of `ServerProxyState::request_next_blocks`: while the
inflight set holds fewer than `INFLIGHT_BLOCK_REQUEST_LIMIT` ids, pop the
first queued id, insert it into the inflight set and emit its id.  Returns
the remaining queue, the new inflight set, and the ids requested in order. -/
def fillWindow : List Nat → List Nat → List Nat × List Nat × List Nat
  | [], inflight => ([], inflight, [])
  | b :: rest, inflight =>
      if inflight.length < INFLIGHT_BLOCK_REQUEST_LIMIT then
        let r := fillWindow rest (insertSorted b inflight)
        (r.1, r.2.1, b :: r.2.2)
      else (b :: rest, inflight, [])

/-- `ServerProxyState::request_next_blocks`: fill the inflight window from
the request queue, emitting one `TransferBlockRequest` per id moved. -/
def request_next_blocks (s : DownloadingWorldState) :
    DownloadingWorldState × List OutPacket :=
  let r := fillWindow s.block_request_queue s.inflight_block_requests
  ({ s with block_request_queue := r.1, inflight_block_requests := r.2.1 },
   r.2.2.map fun b =>
     (TransferBlockRequestPacket.encode_full_packet ⟨b⟩, PacketDirection.ToServer))

/-- One re-sent `TransferBlockRequest` per currently inflight block id, as
emitted by the stall-recovery branch. -/
def resendInflight (s : DownloadingWorldState) : List OutPacket :=
  s.inflight_block_requests.map fun id =>
    (TransferBlockRequestPacket.encode_full_packet ⟨id⟩, PacketDirection.ToServer)

/-- The stall-recovery check at the end of the `DownloadingWorld` arm of
`on_packet_from_server`: if more than 100 ms have passed since
`last_block_time`, re-send a request for every inflight id and top up the
window. -/
def stall_step (now : Nat) (s : DownloadingWorldState) :
    DownloadingWorldState × List OutPacket :=
  if 100 < now - s.last_block_time then
    let r := request_next_blocks s
    (r.1, resendInflight s ++ r.2)
  else (s, [])

/-- Shared tail of the `DownloadingWorld` arm: run the stall check on the
current state and return, staying in `DownloadingWorld`. -/
def after_stall (now : Nat) (s : DownloadingWorldState) (outs : List OutPacket) :
    StepResult :=
  let r := stall_step now s
  ⟨.DownloadingWorld r.1, outs ++ r.2, none⟩

/-- The block-count computation of `transition_to_downloading_world`:
`(size + TRANSFER_BLOCK_SIZE - 1) / TRANSFER_BLOCK_SIZE` on `u32`, with the
addition and the subtraction wrapping modulo `2^32`. -/
def blockCount (size : Nat) : Nat :=
  ((size + TRANSFER_BLOCK_SIZE) % u32Mod + (u32Mod - 1)) % u32Mod
    / TRANSFER_BLOCK_SIZE

/-- The `DownloadingWorldState` literal built by
`transition_to_downloading_world`, before the initial window fill. -/
def initDownloadingState (now : Nat) (in_packet_data : List Nat)
    (world_info : MapReadyForDownloadData) : DownloadingWorldState :=
  let world_block_count := blockCount world_info.world_size
  let aux_block_count := blockCount world_info.aux_size
  let total_block_count := (world_block_count + aux_block_count) % u32Mod
  { world_info := world_info
    world_block_count := world_block_count
    held_packets := [in_packet_data]
    received_blocks := []
    block_request_queue := List.range total_block_count
    inflight_block_requests := []
    last_block_time := now }

/-- `ServerProxyState::transition_to_downloading_world`. -/
def transition_to_downloading_world (now : Nat) (in_packet_data : List Nat)
    (world_info : MapReadyForDownloadData) : StepResult :=
  let r := request_next_blocks (initDownloadingState now in_packet_data world_info)
  ⟨.DownloadingWorld r.1, r.2, none⟩

/-- The received-block bookkeeping inside the `TransferBlock` arm:
`inflight.remove(id) || queue.remove(id)` (the second remove runs only when
the first finds nothing), and on success push the block and refresh
`last_block_time`. -/
def accept_transfer_block (now : Nat) (s : DownloadingWorldState)
    (tb : TransferBlockPacket) : DownloadingWorldState :=
  let inInflight := tb.block_id ∈ s.inflight_block_requests
  let inQueue := tb.block_id ∈ s.block_request_queue
  { s with
    inflight_block_requests := s.inflight_block_requests.erase tb.block_id
    block_request_queue :=
      if inInflight then s.block_request_queue
      else s.block_request_queue.erase tb.block_id
    received_blocks :=
      if inInflight ∨ inQueue then s.received_blocks ++ [tb] else s.received_blocks
    last_block_time := if inInflight ∨ inQueue then now else s.last_block_time }

/-- Stable insertion of a block after all blocks with a smaller-or-equal id,
the building block of the stable `sort_by_key` in `finalize_world`. -/
def insertByBlockId (tb : TransferBlockPacket) :
    List TransferBlockPacket → List TransferBlockPacket
  | [] => [tb]
  | b :: bs =>
      if b.block_id ≤ tb.block_id then b :: insertByBlockId tb bs
      else tb :: b :: bs

/-- Stable sort of the received blocks by block id
(`received_blocks.sort_by_key(|block| block.block_id)`). -/
def sortByBlockId (blocks : List TransferBlockPacket) : List TransferBlockPacket :=
  blocks.foldl (fun acc tb => insertByBlockId tb acc) []

/-- The concatenation of the received blocks' bytes in block-id order
(the `received_data` buffer of `finalize_world`). -/
def concatReceived (s : DownloadingWorldState) : List Nat :=
  ((sortByBlockId s.received_blocks).map TransferBlockPacket.data).flatten

/-- `aux_data_offset = world_block_count * TRANSFER_BLOCK_SIZE` on `u32`. -/
def aux_data_offset (s : DownloadingWorldState) : Nat :=
  s.world_block_count * TRANSFER_BLOCK_SIZE % u32Mod

/-- First index at which `needle` occurs as a contiguous run of `hay`
(`windows(len).position` in `finalize_world`). -/
def firstMatch (needle : List Nat) : List Nat → Option Nat
  | [] => if ([] : List Nat).take needle.length = needle then some 0 else none
  | h :: t =>
      if (h :: t).take needle.length = needle then some 0
      else (firstMatch needle t).map (· + 1)

/-- Rewrite the first occurrence of `oldEnc` inside a held packet by
`newEnc`, leaving the packet unchanged when `oldEnc` does not occur. -/
def rewriteHeld (oldEnc newEnc p : List Nat) : List Nat :=
  match firstMatch oldEnc p with
  | none => p
  | some pos => p.take pos ++ newEnc ++ p.drop (pos + oldEnc.length)

/-- `Bytes::slice(start..stop)`: the bytes in `[start, stop)`.  The bytes
crate panics when `start > stop` or `stop` exceeds the buffer length; a
panic is `none`. -/
def bytesSlice (start stop : Nat) (b : List Nat) : Option (List Nat) :=
  if start ≤ stop ∧ stop ≤ b.length then some ((b.drop start).take (stop - start))
  else none

/-- `ServerProxyState::finalize_world`.  Sort and concatenate the received
blocks; check the length against the expected end of the aux region; slice
world and aux data; run the deconstructor; on success spawn the transfer
task, rewrite the announcement record inside every held packet and forward
the held packets to the client; end in `Done`.  The two `Bytes::slice`
calls can panic — the length check only bounds the aux end, so
`slice(..world_size)` panics whenever `world_size` exceeds the received
length, and the `u32` end of the aux slice can wrap below its start; a
panic kills the peer task and is modelled as `none`. -/
def finalize_world (deconstruct : DeconstructFn) (s : DownloadingWorldState) :
    Option StepResult :=
  let received_data := concatReceived s
  if received_data.length < aux_data_offset s + s.world_info.aux_size then
    some ⟨.Done, [], none⟩
  else
    match bytesSlice 0 s.world_info.world_size received_data with
    | none => none
    | some world_data =>
        match bytesSlice (aux_data_offset s)
            ((aux_data_offset s + s.world_info.aux_size) % u32Mod)
            received_data with
        | none => none
        | some aux_data =>
            match deconstruct world_data aux_data with
            | none => some ⟨.Done, [], none⟩
            | some world_description =>
                let new_world_info : MapReadyForDownloadData :=
                  { s.world_info with
                    world_size := world_description.world_size
                    world_crc := world_description.reconstructed_crc }
                let oldEnc := s.world_info.encode
                let newEnc := new_world_info.encode
                some ⟨.Done,
                  s.held_packets.map fun p => (rewriteHeld oldEnc newEnc p, .ToClient),
                  some world_description⟩

/-- The `TransferBlock` arm of the `DownloadingWorld` phase: account for the
received block, then either finalize (both sets empty) or refill the window
and fall through to the stall check.  `none` propagates a finalize panic. -/
def handle_transfer_block (deconstruct : DeconstructFn) (now : Nat)
    (s : DownloadingWorldState) (tb : TransferBlockPacket) : Option StepResult :=
  let s1 := accept_transfer_block now s tb
  if s1.block_request_queue = [] ∧ s1.inflight_block_requests = [] then
    finalize_world deconstruct s1
  else
    let r := request_next_blocks s1
    some (after_stall now r.1 r.2)

/-- `ServerProxyState::on_packet_from_server`.  A `none` result is a panic
of the peer task (only the `Bytes::slice` calls inside `finalize_world` can
raise one); a panicked task emits nothing and never runs again. -/
def on_packet_from_server (deconstruct : DeconstructFn) (now : Nat)
    (phase : ServerProxyPhase) (in_packet_data : List Nat) : Option StepResult :=
  match phase with
  | .WaitingForWorld =>
      match FactorioPacketHeader.decode in_packet_data with
      | some (header, msg_data) =>
          if header.packet_type = .ServerToClientHeartbeat then
            match tryDecodeMapReady msg_data with
            | some (some world_info) =>
                some (transition_to_downloading_world now in_packet_data world_info)
            | _ => some ⟨.WaitingForWorld, [(in_packet_data, .ToClient)], none⟩
          else some ⟨.WaitingForWorld, [(in_packet_data, .ToClient)], none⟩
      | none => some ⟨.WaitingForWorld, [(in_packet_data, .ToClient)], none⟩
  | .DownloadingWorld s =>
      match FactorioPacketHeader.decode in_packet_data with
      | some (header, msg_data) =>
          if header.packet_type = .TransferBlock then
            match TransferBlockPacket.decode msg_data with
            | none => some ⟨.DownloadingWorld s, [], none⟩
            | some tb => handle_transfer_block deconstruct now s tb
          else
            some (after_stall now
              { s with held_packets := s.held_packets ++ [in_packet_data] } [])
      | none => some (after_stall now s [])
  | .Done => some ⟨.Done, [(in_packet_data, .ToClient)], none⟩

/-- The receive arm of the `proxy_server` task loop: a UDP packet arriving
from a remote address other than the configured game-server address is
dropped before reaching the state machine
(`if remote_addr != args.factorio_addr { continue; }`).  Socket addresses
are abstracted as naturals. -/
def proxy_server_handle_udp (deconstruct : DeconstructFn) (now : Nat)
    (factorio_addr remote_addr : Nat) (phase : ServerProxyPhase)
    (data : List Nat) : Option StepResult :=
  if remote_addr ≠ factorio_addr then some ⟨phase, [], none⟩
  else on_packet_from_server deconstruct now phase data

/-! ## Client proxy (`src/proxy/client_proxy.rs`) -/

/-- `WORLD_DATA_TIMEOUT` (60 s), in milliseconds. -/
def WORLD_DATA_TIMEOUT : Nat := 60000

/-- `ClientProxyState` from `client_proxy.rs` (`last_block_request` is a
millisecond timestamp). -/
structure ClientProxyState where
  world_data : List Nat
  last_block_request : Nat
  pending_requests : List Nat
  pending_requests_swap : List Nat
  world_data_done : Bool
deriving DecidableEq, Repr

/-- `ClientProxyState::new`. -/
def ClientProxyState.new (now : Nat) : ClientProxyState :=
  { world_data := []
    last_block_request := now
    pending_requests := []
    pending_requests_swap := []
    world_data_done := false }

/-- `ClientProxyState::try_fulfill_block_request`: serve a block from the
local world buffer when the whole block fits inside it. -/
def try_fulfill_block_request (s : ClientProxyState) (requested_block_id : Nat) :
    Option TransferBlockPacket :=
  let offset := requested_block_id * TRANSFER_BLOCK_SIZE
  if offset + TRANSFER_BLOCK_SIZE ≤ s.world_data.length then
    some ⟨requested_block_id, (s.world_data.drop offset).take TRANSFER_BLOCK_SIZE⟩
  else none

/-- `ClientProxyState::on_packet_from_client`. -/
def on_packet_from_client (now : Nat) (s : ClientProxyState)
    (packet_data : List Nat) : ClientProxyState × List OutPacket :=
  let fallthrough : ClientProxyState × List OutPacket :=
    let s' :=
      if s.world_data ≠ [] ∧ s.world_data_done = true ∧
          WORLD_DATA_TIMEOUT < now - s.last_block_request then
        { s with world_data := [] }
      else s
    (s', [(packet_data, .ToServer)])
  match FactorioPacketHeader.decode packet_data with
  | some (header, msg_data) =>
      if header.packet_type = .TransferBlockRequest then
        match TransferBlockRequestPacket.decode msg_data with
        | some request =>
            match try_fulfill_block_request s request.block_id with
            | some response =>
                ({ s with last_block_request := now },
                 [(response.encode_full_packet, .ToClient)])
            | none =>
                ({ s with
                   pending_requests := insertSorted request.block_id s.pending_requests
                   last_block_request := now },
                 [])
        | none => fallthrough
      else fallthrough
  | none => fallthrough

/-- `ClientProxyState::on_new_world_data`.  `none` marks the end of the
world stream; `some new_data` extends the buffer, re-scans the pending
requests (unfulfilled ones are collected in the swap set, which then
becomes the pending set) and refreshes `last_block_request`. -/
def on_new_world_data (now : Nat) (s : ClientProxyState)
    (new_data : Option (List Nat)) : ClientProxyState × List OutPacket :=
  match new_data with
  | none =>
      ({ s with world_data_done := true, last_block_request := now }, [])
  | some new_data =>
      let s1 := { s with world_data := s.world_data ++ new_data }
      let outs := s1.pending_requests.filterMap fun id =>
        (try_fulfill_block_request s1 id).map fun response =>
          ((response.encode_full_packet, PacketDirection.ToClient) : OutPacket)
      let unfulfilled := s1.pending_requests.filter fun id =>
        (try_fulfill_block_request s1 id).isNone
      ({ s1 with
         pending_requests :=
           unfulfilled.foldl (fun acc id => insertSorted id acc) s.pending_requests_swap
         pending_requests_swap := []
         last_block_request := now },
       outs)

/-! ## Client-side chunk-batch verification (`transfer_world_data`) -/

/-- A chunk key: the 32-byte BLAKE3 digest, as a byte list. -/
abbrev ChunkKey := List Nat

/-- The local chunk map `local_cache`, an insert-ordered association list. -/
abbrev LocalCache := List (ChunkKey × List Nat)

/-- `HashMap::insert` semantics on the association-list model: the new
binding is placed in front and shadows any previous binding of the key
(lookups read the most recent binding). -/
def cacheInsert (key : ChunkKey) (chunk : List Nat) (m : LocalCache) : LocalCache :=
  (key, chunk) :: m

/-- The verification loop of `transfer_world_data` in `client_proxy.rs`:
walk the `batch_keys().zip(response.chunks)` pairs in order; on the first
chunk whose hash differs from its key fail (`Err`, aborting the transfer);
otherwise insert the chunk into `local_cache` under its key and continue.
The BLAKE3 hash (an external crate) is a parameter. -/
def verifyChunkLoop (hash : List Nat → ChunkKey) :
    List (ChunkKey × List Nat) → LocalCache → Option LocalCache
  | [], cache => some cache
  | (key, chunk) :: rest, cache =>
      if hash chunk = key then verifyChunkLoop hash rest (cacheInsert key chunk cache)
      else none

/-- The chunk-batch tail of `transfer_world_data`: run the verification
loop over the zipped keys and chunks; only when every pair verifies is
`batch.fulfill` reached (recorded as the `Bool` in the result). -/
def processChunkBatch (hash : List Nat → ChunkKey) (batchKeys : List ChunkKey)
    (respChunks : List (List Nat)) (cache : LocalCache) :
    Option (LocalCache × Bool) :=
  match verifyChunkLoop hash (batchKeys.zip respChunks) cache with
  | some cache' => some (cache', true)
  | none => none

/-- Association-list lookup on the local chunk map. -/
def cacheLookup (key : ChunkKey) : LocalCache → Option (List Nat)
  | [] => none
  | (k, v) :: m => if k = key then some v else cacheLookup key m

/-! ## Auxiliary predicates and concrete states used by the theorems -/

/-- The per-phase downloader invariant: in the `DownloadingWorld` phase at
most `INFLIGHT_BLOCK_REQUEST_LIMIT` block requests are inflight. -/
def phaseInflightBound : ServerProxyPhase → Prop
  | .DownloadingWorld s =>
      s.inflight_block_requests.length ≤ INFLIGHT_BLOCK_REQUEST_LIMIT
  | _ => True

instance (phase : ServerProxyPhase) : Decidable (phaseInflightBound phase) := by
  unfold phaseInflightBound
  cases phase <;> infer_instance

/-- The downloader invariant lifted to a possibly-panicking step result: a
panicked task has no next state, so it preserves every invariant. -/
def phaseInflightBoundOpt : Option StepResult → Prop
  | some r => phaseInflightBound r.phase
  | none => True

instance (r : Option StepResult) : Decidable (phaseInflightBoundOpt r) := by
  unfold phaseInflightBoundOpt
  cases r <;> infer_instance

/-- Whether an inbound client packet is handled by the block-request arm of
`on_packet_from_client`: its header decodes, its type is
`TransferBlockRequest`, and its body decodes. -/
def isBlockRequestPacket (pkt : List Nat) : Bool :=
  match FactorioPacketHeader.decode pkt with
  | some (header, msg) =>
      (header.packet_type == PacketType.TransferBlockRequest) &&
        (TransferBlockRequestPacket.decode msg).isSome
  | none => false

/-- A heartbeat packet announcing a world of `2^32 - 1` bytes (aux size 0,
CRC 0, no opaque tail), on which the `u32` block-count arithmetic of
`transition_to_downloading_world` wraps. -/
def c1pkt : List Nat := 7 :: 1 :: (u32ToLe 4294967295 ++ u32ToLe 0 ++ u32ToLe 0)

/-- The announcement record carried by `c1pkt`. -/
def c1info : MapReadyForDownloadData := ⟨4294967295, 0, 0, []⟩

/-- A mid-download state: two blocks inflight, two queued, one held packet,
last block seen at time 100. -/
def c4state : DownloadingWorldState :=
  { world_info := ⟨1509, 1, 0, []⟩, world_block_count := 3,
    held_packets := [[9]], received_blocks := [],
    block_request_queue := [2, 3], inflight_block_requests := [0, 1],
    last_block_time := 100 }

/-- A stalled mid-download state: one block inflight, nothing queued, no
block seen since time 0. -/
def c5state : DownloadingWorldState :=
  { world_info := ⟨1509, 1, 0, []⟩, world_block_count := 3,
    held_packets := [], received_blocks := [],
    block_request_queue := [], inflight_block_requests := [5],
    last_block_time := 0 }

/-- A client state with a non-empty world buffer, the download finished
and the last block request at time 0. -/
def c8state : ClientProxyState :=
  { world_data := [1], last_block_request := 0,
    pending_requests := [], pending_requests_swap := [],
    world_data_done := true }

/-! ## Well-formedness and window lemmas -/

/-- Well-formedness of the two block-id sets of a `DownloadingWorldState`:
each is duplicate-free and they are disjoint, as holds for every reachable
state of the `BTreeSet`-backed original. -/
def DWStateWF (s : DownloadingWorldState) : Prop :=
  s.block_request_queue.Nodup ∧ s.inflight_block_requests.Nodup ∧
    ∀ x ∈ s.inflight_block_requests, x ∉ s.block_request_queue

instance (s : DownloadingWorldState) : Decidable (DWStateWF s) := by
  unfold DWStateWF; infer_instance

theorem mem_insertSorted {x a : Nat} {l : List Nat} :
    x ∈ insertSorted a l ↔ x = a ∨ x ∈ l := by
  induction l with
  | nil => simp [insertSorted]
  | cons y ys ih =>
      simp only [insertSorted]
      split
      · simp [List.mem_cons]
      · split
        · next h1 h2 =>
            subst h2
            simp [List.mem_cons]
        · simp [List.mem_cons, ih]
          tauto

theorem length_insertSorted_le (a : Nat) (l : List Nat) :
    (insertSorted a l).length ≤ l.length + 1 := by
  induction l with
  | nil => simp [insertSorted]
  | cons y ys ih =>
      simp only [insertSorted]
      split
      · simp
      · split
        · simp
        · simpa using Nat.succ_le_succ ih

theorem length_insertSorted_of_not_mem {a : Nat} {l : List Nat} (h : a ∉ l) :
    (insertSorted a l).length = l.length + 1 := by
  induction l with
  | nil => simp [insertSorted]
  | cons y ys ih =>
      simp only [insertSorted]
      split
      · simp
      · split
        · next h1 h2 =>
            exact absurd (h2 ▸ List.mem_cons_self y ys) h
        · have : a ∉ ys := fun hm => h (List.mem_cons_of_mem _ hm)
          simp [ih this]

theorem fillWindow_le {q inf : List Nat}
    (h : inf.length ≤ INFLIGHT_BLOCK_REQUEST_LIMIT) :
    (fillWindow q inf).2.1.length ≤ INFLIGHT_BLOCK_REQUEST_LIMIT := by
  induction q generalizing inf with
  | nil => simpa [fillWindow] using h
  | cons b rest ih =>
      simp only [fillWindow]
      split
      · next hlt =>
          exact ih (by have := length_insertSorted_le b inf; omega)
      · simpa using h

theorem fillWindow_union (q inf : List Nat) (x : Nat) :
    (x ∈ (fillWindow q inf).2.1 ∨ x ∈ (fillWindow q inf).1) ↔
      (x ∈ inf ∨ x ∈ q) := by
  induction q generalizing inf with
  | nil => simp [fillWindow]
  | cons b rest ih =>
      simp only [fillWindow]
      split
      · rw [ih]
        simp [mem_insertSorted, List.mem_cons]
        tauto
      · simp

theorem fillWindow_end (q inf : List Nat) :
    (fillWindow q inf).1 = [] ∨
      INFLIGHT_BLOCK_REQUEST_LIMIT ≤ (fillWindow q inf).2.1.length := by
  induction q generalizing inf with
  | nil => simp [fillWindow]
  | cons b rest ih =>
      simp only [fillWindow]
      split
      · exact ih _
      · next hge => right; simpa using Nat.le_of_not_lt hge

theorem fillWindow_noop {q inf : List Nat}
    (h : INFLIGHT_BLOCK_REQUEST_LIMIT ≤ inf.length ∨ q = []) :
    fillWindow q inf = (q, inf, []) := by
  match q with
  | [] => rfl
  | b :: rest =>
      rcases h with h | h
      · simp only [fillWindow]
        rw [if_neg (Nat.not_lt.mpr h)]
      · exact absurd h (List.cons_ne_nil b rest)

theorem fillWindow_spec (q : List Nat) (hq : q.Nodup) :
    ∀ inf : List Nat, (∀ x ∈ inf, x ∉ q) →
      ∃ k, k ≤ q.length ∧
        (fillWindow q inf).2.2 = q.take k ∧
        (fillWindow q inf).1 = q.drop k ∧
        (fillWindow q inf).2.1.length = inf.length + k := by
  induction q with
  | nil => exact fun inf _ => ⟨0, by simp [fillWindow]⟩
  | cons b rest ih =>
      intro inf hdisj
      simp only [fillWindow]
      split
      · have hb : b ∉ inf := fun h => hdisj b h (List.mem_cons_self b rest)
        have hdisj' : ∀ x ∈ insertSorted b inf, x ∉ rest := by
          intro x hx
          rcases mem_insertSorted.mp hx with rfl | hx'
          · exact hq.not_mem
          · exact fun hr => hdisj x hx' (List.mem_cons_of_mem _ hr)
        obtain ⟨k, hk, h1, h2, h3⟩ := ih hq.of_cons (insertSorted b inf) hdisj'
        refine ⟨k + 1, by simpa using Nat.succ_le_succ hk, ?_, ?_, ?_⟩
        · simpa using h1
        · simpa using h2
        · simp only []
          rw [h3, length_insertSorted_of_not_mem hb]
          omega
      · exact ⟨0, by simp⟩

theorem request_next_blocks_fields (s : DownloadingWorldState) :
    (request_next_blocks s).1.world_info = s.world_info ∧
      (request_next_blocks s).1.world_block_count = s.world_block_count ∧
      (request_next_blocks s).1.held_packets = s.held_packets ∧
      (request_next_blocks s).1.received_blocks = s.received_blocks ∧
      (request_next_blocks s).1.last_block_time = s.last_block_time := by
  simp [request_next_blocks]

/-! ## Substring-rewrite lemmas -/

theorem firstMatch_none {nd : List Nat} :
    ∀ {hay : List Nat}, firstMatch nd hay = none →
      ∀ i, (hay.drop i).take nd.length ≠ nd := by
  intro hay
  induction hay with
  | nil =>
      intro h i
      simp only [firstMatch] at h
      split at h
      · exact absurd h (by simp)
      · next hne => simpa using hne
  | cons b t ih =>
      intro h i
      simp only [firstMatch] at h
      split at h
      · exact absurd h (by simp)
      · next hne =>
          match i with
          | 0 => simpa using hne
          | i + 1 =>
              have ht : firstMatch nd t = none := by
                cases hfm : firstMatch nd t with
                | none => rfl
                | some j => rw [hfm] at h; simp at h
              simpa using ih ht i

theorem firstMatch_some {nd : List Nat} :
    ∀ {hay : List Nat} {i : Nat}, firstMatch nd hay = some i →
      (hay.drop i).take nd.length = nd ∧
        ∀ j, j < i → (hay.drop j).take nd.length ≠ nd := by
  intro hay
  induction hay with
  | nil =>
      intro i h
      simp only [firstMatch] at h
      split at h
      · next heq =>
          obtain rfl : i = 0 := by simpa using h.symm
          exact ⟨by simpa using heq, fun j hj => absurd hj (Nat.not_lt_zero j)⟩
      · exact absurd h (by simp)
  | cons b t ih =>
      intro i h
      simp only [firstMatch] at h
      split at h
      · next heq =>
          obtain rfl : i = 0 := by simpa using h.symm
          exact ⟨by simpa using heq, fun j hj => absurd hj (Nat.not_lt_zero j)⟩
      · next hne =>
          obtain ⟨i', hi', rfl⟩ : ∃ i', firstMatch nd t = some i' ∧ i = i' + 1 := by
            cases hfm : firstMatch nd t with
            | none => rw [hfm] at h; simp at h
            | some j =>
                rw [hfm] at h
                have hji : j + 1 = i := by simpa using h
                exact ⟨j, rfl, hji.symm⟩
          obtain ⟨hocc, hmin⟩ := ih hi'
          refine ⟨by simpa using hocc, fun j hj => ?_⟩
          match j with
          | 0 => simpa using hne
          | j + 1 => exact (by simpa using hmin j (by omega))

theorem eq_take_append_drop_of_occurrence {nd hay : List Nat} {i : Nat}
    (h : (hay.drop i).take nd.length = nd) :
    hay = hay.take i ++ nd ++ hay.drop (i + nd.length) := by
  have h2 : hay.drop i = nd ++ hay.drop (i + nd.length) := by
    conv_lhs => rw [← List.take_append_drop nd.length (hay.drop i)]
    rw [h, List.drop_drop]
  conv_lhs => rw [← List.take_append_drop i hay, h2]
  simp

theorem rewriteHeld_of_no_occurrence {oldEnc newEnc p : List Nat}
    (h : ∀ i, (p.drop i).take oldEnc.length ≠ oldEnc) :
    rewriteHeld oldEnc newEnc p = p := by
  unfold rewriteHeld
  cases hfm : firstMatch oldEnc p with
  | none => rfl
  | some i => exact absurd (firstMatch_some hfm).1 (h i)

theorem rewriteHeld_of_occurrence {oldEnc newEnc p : List Nat} {i : Nat}
    (h : firstMatch oldEnc p = some i) :
    (p.drop i).take oldEnc.length = oldEnc ∧
      (∀ j, j < i → (p.drop j).take oldEnc.length ≠ oldEnc) ∧
      p = p.take i ++ oldEnc ++ p.drop (i + oldEnc.length) ∧
      rewriteHeld oldEnc newEnc p = p.take i ++ newEnc ++ p.drop (i + oldEnc.length) := by
  obtain ⟨hocc, hmin⟩ := firstMatch_some h
  exact ⟨hocc, hmin, eq_take_append_drop_of_occurrence hocc,
    by unfold rewriteHeld; rw [h]⟩

theorem firstMatch_isSome_of_occurrence {oldEnc p : List Nat} {i : Nat}
    (h : (p.drop i).take oldEnc.length = oldEnc) :
    ∃ j, firstMatch oldEnc p = some j := by
  cases hfm : firstMatch oldEnc p with
  | none => exact absurd h (firstMatch_none hfm i)
  | some j => exact ⟨j, rfl⟩

/-! ## Chunk-batch verification lemmas -/

theorem cacheLookup_insert_self (k : ChunkKey) (v : List Nat) (m : LocalCache) :
    cacheLookup k (cacheInsert k v m) = some v := by
  simp [cacheInsert, cacheLookup]

theorem cacheLookup_insert_ne {k k' : ChunkKey} (h : k ≠ k') (v : List Nat)
    (m : LocalCache) : cacheLookup k (cacheInsert k' v m) = cacheLookup k m := by
  have : k' ≠ k := fun hh => h hh.symm
  simp [cacheInsert, cacheLookup, this]

theorem verifyChunkLoop_mismatch (hash : List Nat → ChunkKey) :
    ∀ (pairs : List (ChunkKey × List Nat)) (cache : LocalCache),
      (∃ p ∈ pairs, hash p.2 ≠ p.1) →
        verifyChunkLoop hash pairs cache = none := by
  intro pairs
  induction pairs with
  | nil => rintro cache ⟨p, hp, _⟩; exact absurd hp (List.not_mem_nil p)
  | cons q rest ih =>
      rintro cache ⟨p, hp, hne⟩
      obtain ⟨key, chunk⟩ := q
      simp only [verifyChunkLoop]
      split
      · next hok =>
          rcases List.mem_cons.mp hp with rfl | hp'
          · exact absurd hok hne
          · exact ih _ ⟨p, hp', hne⟩
      · rfl

theorem verifyChunkLoop_lookup_preserved (hash : List Nat → ChunkKey)
    (k : ChunkKey) :
    ∀ (pairs : List (ChunkKey × List Nat)) (cache cache' : LocalCache),
      verifyChunkLoop hash pairs cache = some cache' →
        k ∉ pairs.map Prod.fst →
          cacheLookup k cache' = cacheLookup k cache := by
  intro pairs
  induction pairs with
  | nil =>
      intro cache cache' h _
      simp only [verifyChunkLoop] at h
      cases h
      rfl
  | cons q rest ih =>
      intro cache cache' h hk
      obtain ⟨key, chunk⟩ := q
      simp only [verifyChunkLoop] at h
      split at h
      · have hk1 : k ≠ key := by
          intro hkk
          exact hk (by simp [hkk])
        have hk2 : k ∉ rest.map Prod.fst := fun hm => hk (by simp [hm])
        rw [ih _ _ h hk2]
        exact cacheLookup_insert_ne hk1 chunk cache
      · cases h

theorem verifyChunkLoop_ok (hash : List Nat → ChunkKey) :
    ∀ (pairs : List (ChunkKey × List Nat)) (cache : LocalCache),
      (∀ p ∈ pairs, hash p.2 = p.1) →
        ∃ cache', verifyChunkLoop hash pairs cache = some cache' ∧
          ((pairs.map Prod.fst).Nodup →
            ∀ p ∈ pairs, cacheLookup p.1 cache' = some p.2) := by
  intro pairs
  induction pairs with
  | nil =>
      intro cache _
      exact ⟨cache, rfl, fun _ p hp => absurd hp (List.not_mem_nil p)⟩
  | cons q rest ih =>
      intro cache hall
      obtain ⟨key, chunk⟩ := q
      have hq : hash chunk = key := hall (key, chunk) (List.mem_cons_self _ _)
      obtain ⟨cache', heq, hprop⟩ :=
        ih (cacheInsert key chunk cache)
          (fun p hp => hall p (List.mem_cons_of_mem _ hp))
      refine ⟨cache', by simp only [verifyChunkLoop]; rw [if_pos hq]; exact heq, ?_⟩
      intro hnodup p hp
      have hkey_notin : key ∉ rest.map Prod.fst := by
        simpa using hnodup.not_mem
      rcases List.mem_cons.mp hp with rfl | hp'
      · rw [verifyChunkLoop_lookup_preserved hash key rest _ _ heq hkey_notin]
        exact cacheLookup_insert_self key chunk cache
      · exact hprop (by simpa using hnodup.of_cons) p hp'

/-! ## Step-function helper lemmas -/

theorem length_erase_le (a : Nat) (l : List Nat) :
    (l.erase a).length ≤ l.length := by
  by_cases hm : a ∈ l
  · rw [List.length_erase_of_mem hm]
    omega
  · rw [List.erase_of_not_mem hm]

theorem request_next_blocks_le {s : DownloadingWorldState}
    (h : s.inflight_block_requests.length ≤ INFLIGHT_BLOCK_REQUEST_LIMIT) :
    (request_next_blocks s).1.inflight_block_requests.length ≤
      INFLIGHT_BLOCK_REQUEST_LIMIT := by
  unfold request_next_blocks
  exact fillWindow_le h

theorem request_next_blocks_noop {s : DownloadingWorldState}
    (h : s.block_request_queue = [] ∨
      INFLIGHT_BLOCK_REQUEST_LIMIT ≤ s.inflight_block_requests.length) :
    request_next_blocks s = (s, []) := by
  unfold request_next_blocks
  rw [fillWindow_noop h.symm]
  rfl

theorem request_next_blocks_end (s : DownloadingWorldState) :
    (request_next_blocks s).1.block_request_queue = [] ∨
      INFLIGHT_BLOCK_REQUEST_LIMIT ≤
        (request_next_blocks s).1.inflight_block_requests.length := by
  unfold request_next_blocks
  exact fillWindow_end s.block_request_queue s.inflight_block_requests

theorem stall_step_fst (now : Nat) (s : DownloadingWorldState)
    (h : s.block_request_queue = [] ∨
      INFLIGHT_BLOCK_REQUEST_LIMIT ≤ s.inflight_block_requests.length) :
    (stall_step now s).1 = s := by
  by_cases hc : 100 < now - s.last_block_time
  · simp only [stall_step, if_pos hc, request_next_blocks_noop h]
  · simp only [stall_step, if_neg hc]

theorem stall_step_out_toServer (now : Nat) (s : DownloadingWorldState) :
    ∀ o ∈ (stall_step now s).2, o.2 = PacketDirection.ToServer := by
  unfold stall_step
  split
  · intro o ho
    rcases List.mem_append.mp ho with ho | ho
    · obtain ⟨id, _, rfl⟩ := List.mem_map.mp ho
      rfl
    · unfold request_next_blocks at ho
      obtain ⟨id, _, rfl⟩ := List.mem_map.mp ho
      rfl
  · intro o ho
    exact absurd ho (List.not_mem_nil o)

theorem stall_step_held (now : Nat) (s : DownloadingWorldState) :
    (stall_step now s).1.held_packets = s.held_packets := by
  unfold stall_step
  split
  · exact (request_next_blocks_fields s).2.2.1
  · rfl

theorem after_stall_bound (now : Nat) (s : DownloadingWorldState)
    (outs : List OutPacket)
    (h : s.inflight_block_requests.length ≤ INFLIGHT_BLOCK_REQUEST_LIMIT) :
    phaseInflightBound (after_stall now s outs).phase := by
  by_cases hc : 100 < now - s.last_block_time
  · simp only [after_stall, stall_step, if_pos hc, phaseInflightBound]
    exact request_next_blocks_le h
  · simp only [after_stall, stall_step, if_neg hc, phaseInflightBound]
    exact h

theorem finalize_world_phase (deconstruct : DeconstructFn)
    (s : DownloadingWorldState) :
    ∀ r, finalize_world deconstruct s = some r → r.phase = .Done := by
  intro r h
  simp only [finalize_world] at h
  split at h
  · rw [Option.some_inj] at h
    subst h
    rfl
  · split at h
    · exact Option.noConfusion h
    · split at h
      · exact Option.noConfusion h
      · split at h <;>
          · rw [Option.some_inj] at h
            subst h
            rfl

theorem finalize_world_bound (deconstruct : DeconstructFn)
    (s : DownloadingWorldState) :
    phaseInflightBoundOpt (finalize_world deconstruct s) := by
  cases hr : finalize_world deconstruct s with
  | none => trivial
  | some r =>
      have hph := finalize_world_phase deconstruct s r hr
      simp only [phaseInflightBoundOpt, hph]
      trivial

theorem blockCount_eq {size : Nat} (h : size + TRANSFER_BLOCK_SIZE < u32Mod) :
    blockCount size = (size + TRANSFER_BLOCK_SIZE - 1) / TRANSFER_BLOCK_SIZE := by
  unfold blockCount
  rw [Nat.mod_eq_of_lt h]
  have h1 : size + TRANSFER_BLOCK_SIZE + (u32Mod - 1)
      = (size + TRANSFER_BLOCK_SIZE - 1) + u32Mod := by
    unfold TRANSFER_BLOCK_SIZE u32Mod at *
    omega
  rw [h1, Nat.add_mod_right,
    Nat.mod_eq_of_lt (by unfold TRANSFER_BLOCK_SIZE u32Mod at *; omega)]

theorem blockCount_sum_small {a b : Nat} (ha : a + TRANSFER_BLOCK_SIZE < u32Mod)
    (hb : b + TRANSFER_BLOCK_SIZE < u32Mod) :
    blockCount a + blockCount b < u32Mod := by
  rw [blockCount_eq ha, blockCount_eq hb]
  have h1 : (a + TRANSFER_BLOCK_SIZE - 1) / TRANSFER_BLOCK_SIZE ≤
      (u32Mod - 2) / TRANSFER_BLOCK_SIZE :=
    Nat.div_le_div_right (by unfold TRANSFER_BLOCK_SIZE u32Mod at *; omega)
  have h2 : (b + TRANSFER_BLOCK_SIZE - 1) / TRANSFER_BLOCK_SIZE ≤
      (u32Mod - 2) / TRANSFER_BLOCK_SIZE :=
    Nat.div_le_div_right (by unfold TRANSFER_BLOCK_SIZE u32Mod at *; omega)
  have h3 : (u32Mod - 2) / TRANSFER_BLOCK_SIZE + (u32Mod - 2) / TRANSFER_BLOCK_SIZE
      < u32Mod := by decide
  omega

/-! ## Claim theorems -/

/-- C10: every UDP packet received on the server proxy's per-peer socket
whose remote address differs from the configured game-server address is
discarded: the proxy state is unchanged and no packet is emitted in either
direction. -/
theorem c10_foreign_udp_dropped (deconstruct : DeconstructFn) (now : Nat)
    (factorio_addr remote_addr : Nat) (phase : ServerProxyPhase)
    (data : List Nat) (h : remote_addr ≠ factorio_addr) :
    proxy_server_handle_udp deconstruct now factorio_addr remote_addr phase data
      = some ⟨phase, [], none⟩ := by
  simp [proxy_server_handle_udp, h]

/-- Witness for C10 at a concrete foreign address. -/
theorem c10_foreign_udp_dropped_witness :
    proxy_server_handle_udp (fun _ _ => none) 0 1 2 .WaitingForWorld [5]
      = some ⟨.WaitingForWorld, [], none⟩ :=
  c10_foreign_udp_dropped (fun _ _ => none) 0 1 2 .WaitingForWorld [5] (by decide)

/-- C6: if finalize's length check fails (the concatenated received bytes
are shorter than the expected aux-data end offset) or world deconstruction
fails, the server proxy transitions to `Done` without spawning the tunnel
stream task, and thereafter (`Done` phase) forwards packets from the game
server verbatim to the client.  World deconstruction only runs when the
two `Bytes::slice` calls before it do not panic, i.e. when the announced
`world_size` fits in the received bytes and the `u32` aux end does not
wrap (second conjunct); at states violating that, the code panics before
deconstruction and the peer task dies (third conjunct). -/
theorem c6_finalize_failure_falls_back (deconstruct : DeconstructFn) :
    (∀ s : DownloadingWorldState,
      (concatReceived s).length < aux_data_offset s + s.world_info.aux_size →
        finalize_world deconstruct s = some ⟨.Done, [], none⟩)
    ∧ (∀ s : DownloadingWorldState,
      ¬ (concatReceived s).length < aux_data_offset s + s.world_info.aux_size →
      s.world_info.world_size ≤ (concatReceived s).length →
      aux_data_offset s + s.world_info.aux_size < u32Mod →
      deconstruct ((concatReceived s).take s.world_info.world_size)
          (((concatReceived s).drop (aux_data_offset s)).take s.world_info.aux_size)
        = none →
        finalize_world deconstruct s = some ⟨.Done, [], none⟩)
    ∧ (∀ s : DownloadingWorldState,
      ¬ (concatReceived s).length < aux_data_offset s + s.world_info.aux_size →
      (concatReceived s).length < s.world_info.world_size →
        finalize_world deconstruct s = none)
    ∧ (∀ (now : Nat) (pkt : List Nat),
        on_packet_from_server deconstruct now .Done pkt
          = some ⟨.Done, [(pkt, .ToClient)], none⟩) := by
  refine ⟨?_, ?_, ?_, ?_⟩
  · intro s h
    simp only [finalize_world, if_pos h]
  · intro s h hws hwrap hd
    have h1 : bytesSlice 0 s.world_info.world_size (concatReceived s)
        = some ((concatReceived s).take s.world_info.world_size) := by
      simp [bytesSlice, hws]
    have h2 : bytesSlice (aux_data_offset s)
        ((aux_data_offset s + s.world_info.aux_size) % u32Mod) (concatReceived s)
        = some (((concatReceived s).drop (aux_data_offset s)).take
            s.world_info.aux_size) := by
      rw [Nat.mod_eq_of_lt hwrap]
      simp [bytesSlice, Nat.le_of_not_lt h]
    simp only [finalize_world, if_neg h, h1, h2, hd]
  · intro s h hws
    have h1 : bytesSlice 0 s.world_info.world_size (concatReceived s) = none := by
      unfold bytesSlice
      rw [if_neg (show ¬(0 ≤ s.world_info.world_size
        ∧ s.world_info.world_size ≤ (concatReceived s).length) by omega)]
    simp only [finalize_world, if_neg h, h1]
  · intro now pkt
    rfl

/-- A `DownloadingWorldState` whose received bytes are shorter than the
expected aux-data end offset. -/
def c6stateA : DownloadingWorldState :=
  { world_info := ⟨1509, 1, 0, []⟩, world_block_count := 3,
    held_packets := [[9]], received_blocks := [],
    block_request_queue := [], inflight_block_requests := [],
    last_block_time := 0 }

/-- A `DownloadingWorldState` that passes the length check (empty world,
no aux data). -/
def c6stateB : DownloadingWorldState :=
  { world_info := ⟨0, 0, 0, []⟩, world_block_count := 0,
    held_packets := [[9]], received_blocks := [],
    block_request_queue := [], inflight_block_requests := [],
    last_block_time := 0 }

/-- A state that passes the length check although its announced
`world_size` exceeds the received bytes: `slice(..world_size)` panics. -/
def c6stateC : DownloadingWorldState :=
  { world_info := ⟨5, 0, 0, []⟩, world_block_count := 0,
    held_packets := [[9]], received_blocks := [],
    block_request_queue := [], inflight_block_requests := [],
    last_block_time := 0 }

/-- Witness for C6: the length-check failure, the deconstruction failure,
the slice panic and the `Done`-phase forwarding at concrete inputs. -/
theorem c6_finalize_failure_falls_back_witness :
    finalize_world (fun _ _ => none) c6stateA = some ⟨.Done, [], none⟩
    ∧ finalize_world (fun _ _ => none) c6stateB = some ⟨.Done, [], none⟩
    ∧ finalize_world (fun _ _ => none) c6stateC = none
    ∧ on_packet_from_server (fun _ _ => none) 5 .Done [1, 2, 3]
        = some ⟨.Done, [([1, 2, 3], .ToClient)], none⟩ :=
  ⟨(c6_finalize_failure_falls_back (fun _ _ => none)).1 c6stateA (by decide),
   (c6_finalize_failure_falls_back (fun _ _ => none)).2.1 c6stateB (by decide)
     (by decide) (by decide) rfl,
   (c6_finalize_failure_falls_back (fun _ _ => none)).2.2.1 c6stateC (by decide)
     (by decide),
   (c6_finalize_failure_falls_back (fun _ _ => none)).2.2.2 5 [1, 2, 3]⟩

/-- C9: for every batch of chunks received by the client-side world-data
transfer, each chunk's hash is compared pairwise against the corresponding
requested key; any mismatch makes the transfer return an error before the
batch is fulfilled, and if all hashes match every chunk is inserted into
the local chunk map under its key (the most recent binding of each key).
The BLAKE3 hash itself is an external crate and is a parameter. -/
theorem c9_chunk_hash_verified (hash : List Nat → ChunkKey)
    (batchKeys : List ChunkKey) (respChunks : List (List Nat))
    (cache : LocalCache) :
    ((∃ p ∈ batchKeys.zip respChunks, hash p.2 ≠ p.1) →
        processChunkBatch hash batchKeys respChunks cache = none)
    ∧ ((∀ p ∈ batchKeys.zip respChunks, hash p.2 = p.1) →
        ∃ cache',
          processChunkBatch hash batchKeys respChunks cache = some (cache', true)
          ∧ (((batchKeys.zip respChunks).map Prod.fst).Nodup →
              ∀ p ∈ batchKeys.zip respChunks,
                cacheLookup p.1 cache' = some p.2)) := by
  constructor
  · intro h
    unfold processChunkBatch
    rw [verifyChunkLoop_mismatch hash _ cache h]
  · intro h
    obtain ⟨cache', heq, hprop⟩ := verifyChunkLoop_ok hash _ cache h
    exact ⟨cache', by unfold processChunkBatch; rw [heq], hprop⟩

/-- Witness for C9 with the identity hash: a mismatching batch errors out,
a matching batch is fulfilled and inserted. -/
theorem c9_chunk_hash_verified_witness :
    processChunkBatch (fun c => c) [[1]] [[2]] [] = none
    ∧ ∃ cache', processChunkBatch (fun c => c) [[3]] [[3]] [] = some (cache', true)
        ∧ ((([[3]].zip [[3]] : List (ChunkKey × List Nat)).map Prod.fst).Nodup →
            ∀ p ∈ ([[3]].zip [[3]] : List (ChunkKey × List Nat)),
              cacheLookup p.1 cache' = some p.2) :=
  ⟨(c9_chunk_hash_verified (fun c => c) [[1]] [[2]] []).1 (by decide),
   (c9_chunk_hash_verified (fun c => c) [[3]] [[3]] []).2 (by decide)⟩

/-- C7: every inbound client packet that decodes as a
`TransferBlockRequest(block_id)` is answered locally: with
`offset = block_id * TRANSFER_BLOCK_SIZE`, if the whole block fits in the
world buffer a `TransferBlock` carrying
`world_data[offset..offset+TRANSFER_BLOCK_SIZE]` is emitted to the game
client, otherwise `block_id` is enqueued in `pending_requests`; in both
cases `last_block_request` is set to `now` and the packet is not forwarded
to the server. -/
theorem c7_block_request_served_locally (now : Nat) (s : ClientProxyState)
    (pkt msg : List Nat) (header : FactorioPacketHeader)
    (req : TransferBlockRequestPacket)
    (hdec : FactorioPacketHeader.decode pkt = some (header, msg))
    (htype : header.packet_type = .TransferBlockRequest)
    (hreq : TransferBlockRequestPacket.decode msg = some req) :
    (req.block_id * TRANSFER_BLOCK_SIZE + TRANSFER_BLOCK_SIZE ≤ s.world_data.length →
      on_packet_from_client now s pkt =
        ({ s with last_block_request := now },
         [(TransferBlockPacket.encode_full_packet
             ⟨req.block_id,
              (s.world_data.drop (req.block_id * TRANSFER_BLOCK_SIZE)).take
                TRANSFER_BLOCK_SIZE⟩,
           .ToClient)]))
    ∧ (¬ req.block_id * TRANSFER_BLOCK_SIZE + TRANSFER_BLOCK_SIZE ≤ s.world_data.length →
      on_packet_from_client now s pkt =
        ({ s with
           pending_requests := insertSorted req.block_id s.pending_requests
           last_block_request := now },
         [])) := by
  constructor <;> intro hoff <;>
    simp [on_packet_from_client, hdec, htype, hreq, try_fulfill_block_request, hoff]

/-- A client state holding two full blocks plus a partial third block. -/
def c7state : ClientProxyState :=
  { world_data := List.replicate 1010 1, last_block_request := 0,
    pending_requests := [], pending_requests_swap := [],
    world_data_done := false }

set_option maxRecDepth 4000 in
/-- Witness for C7: block 0 is served from the buffer, block 2 (which does
not fit) is enqueued; neither packet is forwarded. -/
theorem c7_block_request_served_locally_witness :
    on_packet_from_client 42 c7state (11 :: u32ToLe 0) =
      ({ c7state with last_block_request := 42 },
       [(TransferBlockPacket.encode_full_packet
           ⟨0, (c7state.world_data.drop (0 * TRANSFER_BLOCK_SIZE)).take
                 TRANSFER_BLOCK_SIZE⟩, .ToClient)])
    ∧ on_packet_from_client 42 c7state (11 :: u32ToLe 2) =
      ({ c7state with
         pending_requests := insertSorted 2 c7state.pending_requests
         last_block_request := 42 }, []) :=
  ⟨(c7_block_request_served_locally 42 c7state (11 :: u32ToLe 0) (u32ToLe 0)
      ⟨.TransferBlockRequest⟩ ⟨0⟩ rfl rfl rfl).1
      (by simp [c7state, TRANSFER_BLOCK_SIZE]),
   (c7_block_request_served_locally 42 c7state (11 :: u32ToLe 2) (u32ToLe 2)
      ⟨.TransferBlockRequest⟩ ⟨2⟩ rfl rfl rfl).2
      (by simp [c7state, TRANSFER_BLOCK_SIZE])⟩

theorem on_packet_from_client_not_request (now : Nat) (s : ClientProxyState)
    (pkt : List Nat) (h : isBlockRequestPacket pkt = false) :
    on_packet_from_client now s pkt =
      (if s.world_data ≠ [] ∧ s.world_data_done = true ∧
          WORLD_DATA_TIMEOUT < now - s.last_block_request
       then { s with world_data := [] } else s, [(pkt, .ToServer)]) := by
  unfold isBlockRequestPacket at h
  cases hdec : FactorioPacketHeader.decode pkt with
  | none => simp only [on_packet_from_client, hdec]
  | some pr =>
      obtain ⟨header, msg⟩ := pr
      rw [hdec] at h
      by_cases htype : header.packet_type = .TransferBlockRequest
      · cases hreq : TransferBlockRequestPacket.decode msg with
        | some req =>
            simp [htype, hreq] at h
        | none =>
            simp only [on_packet_from_client, hdec, htype, hreq]
            simp
      · simp only [on_packet_from_client, hdec]
        rw [if_neg htype]

/-- C8 (amended): for each inbound game UDP packet that is *not* handled as
a decoded `TransferBlockRequest`, if the world download has finished and
more than `WORLD_DATA_TIMEOUT` (60 s) have elapsed since
`last_block_request`, the world buffer is freed (reset to empty), and
otherwise it is unchanged; a packet handled as a block request never frees
the buffer, and `on_new_world_data` only extends it. -/
theorem c8_world_buffer_freed_on_timeout :
    (∀ (now : Nat) (s : ClientProxyState) (pkt : List Nat),
      isBlockRequestPacket pkt = false →
        (on_packet_from_client now s pkt).1.world_data =
          (if s.world_data_done = true ∧
              WORLD_DATA_TIMEOUT < now - s.last_block_request
           then [] else s.world_data)
        ∧ (on_packet_from_client now s pkt).2 = [(pkt, .ToServer)])
    ∧ (∀ (now : Nat) (s : ClientProxyState) (pkt : List Nat),
      isBlockRequestPacket pkt = true →
        (on_packet_from_client now s pkt).1.world_data = s.world_data)
    ∧ (∀ (now : Nat) (s : ClientProxyState) (new_data : List Nat),
        (on_new_world_data now s (some new_data)).1.world_data
          = s.world_data ++ new_data)
    ∧ (∀ (now : Nat) (s : ClientProxyState),
        (on_new_world_data now s none).1.world_data = s.world_data) := by
  refine ⟨?_, ?_, ?_, ?_⟩
  · intro now s pkt h
    rw [on_packet_from_client_not_request now s pkt h]
    refine ⟨?_, rfl⟩
    by_cases h1 : s.world_data = [] <;>
      by_cases h2 : s.world_data_done = true ∧
        WORLD_DATA_TIMEOUT < now - s.last_block_request <;>
      simp [h1, h2]
  · intro now s pkt h
    unfold isBlockRequestPacket at h
    cases hdec : FactorioPacketHeader.decode pkt with
    | none => rw [hdec] at h; simp at h
    | some pr =>
        obtain ⟨header, msg⟩ := pr
        rw [hdec] at h
        cases hreq : TransferBlockRequestPacket.decode msg with
        | none => simp [hreq] at h
        | some req =>
            have htype : header.packet_type = .TransferBlockRequest := by
              by_cases ht : header.packet_type = .TransferBlockRequest
              · exact ht
              · simp [ht] at h
            simp only [on_packet_from_client, hdec, htype, hreq]
            cases hf : try_fulfill_block_request s req.block_id <;> simp [hf]
  · intro now s new_data
    simp [on_new_world_data]
  · intro now s
    simp [on_new_world_data]

/-- Counterexample for C8 as stated: a decoded `TransferBlockRequest`
arriving when the buffer is full and the timeout has long expired does not
free the buffer (the block-request arm returns before the cleanup check). -/
theorem c8_counterexample :
    c8state.world_data ≠ []
    ∧ c8state.world_data_done = true
    ∧ WORLD_DATA_TIMEOUT < 70000 - c8state.last_block_request
    ∧ (on_packet_from_client 70000 c8state (11 :: u32ToLe 0)).1.world_data
        = c8state.world_data
    ∧ c8state.world_data ≠ [] := by
  refine ⟨by decide, rfl, by decide, rfl, by decide⟩

/-- Witness for the amended C8: a non-request packet after the timeout
frees the buffer; a block-request packet leaves it unchanged. -/
theorem c8_world_buffer_freed_on_timeout_witness :
    ((on_packet_from_client 70000 c8state [0]).1.world_data =
        (if c8state.world_data_done = true ∧
            WORLD_DATA_TIMEOUT < 70000 - c8state.last_block_request
         then [] else c8state.world_data)
      ∧ (on_packet_from_client 70000 c8state [0]).2 = [([0], .ToServer)])
    ∧ (on_packet_from_client 70000 c8state (11 :: u32ToLe 5)).1.world_data
        = c8state.world_data :=
  ⟨c8_world_buffer_freed_on_timeout.1 70000 c8state [0] (by decide),
   c8_world_buffer_freed_on_timeout.2.1 70000 c8state (11 :: u32ToLe 5) (by decide)⟩

/-- C1 (amended): in `WaitingForWorld`, a packet that decodes as a
`ServerToClientHeartbeat` carrying a `MapReadyForDownload` record — with
`world_size` and `aux_size` small enough that the `u32` block-count
arithmetic does not wrap — captures the record, initializes the pending
request queue to exactly `{0, …, total_blocks-1}` with
`total_blocks = ⌈world_size/B⌉ + ⌈aux_size/B⌉` (`B = TRANSFER_BLOCK_SIZE`),
holds the triggering packet, and moves to `DownloadingWorld` (after the
initial window fill); every other packet is forwarded verbatim to the
tunnel and the phase stays `WaitingForWorld`. -/
theorem c1_waiting_for_world (deconstruct : DeconstructFn) (now : Nat) :
    (∀ (pkt msg : List Nat) (header : FactorioPacketHeader)
        (info : MapReadyForDownloadData),
      FactorioPacketHeader.decode pkt = some (header, msg) →
      header.packet_type = .ServerToClientHeartbeat →
      tryDecodeMapReady msg = some (some info) →
      info.world_size + TRANSFER_BLOCK_SIZE < u32Mod →
      info.aux_size + TRANSFER_BLOCK_SIZE < u32Mod →
        (initDownloadingState now pkt info).block_request_queue
            = List.range
                ((info.world_size + TRANSFER_BLOCK_SIZE - 1) / TRANSFER_BLOCK_SIZE
                  + (info.aux_size + TRANSFER_BLOCK_SIZE - 1) / TRANSFER_BLOCK_SIZE)
        ∧ (initDownloadingState now pkt info).world_info = info
        ∧ (initDownloadingState now pkt info).held_packets = [pkt]
        ∧ (initDownloadingState now pkt info).inflight_block_requests = []
        ∧ on_packet_from_server deconstruct now .WaitingForWorld pkt
            = some ⟨.DownloadingWorld
                 (request_next_blocks (initDownloadingState now pkt info)).1,
               (request_next_blocks (initDownloadingState now pkt info)).2, none⟩
        ∧ (request_next_blocks (initDownloadingState now pkt info)).1.held_packets
            = [pkt])
    ∧ (∀ pkt : List Nat,
        (∀ (header : FactorioPacketHeader) (msg : List Nat),
          FactorioPacketHeader.decode pkt = some (header, msg) →
          header.packet_type = .ServerToClientHeartbeat →
          ∀ info, tryDecodeMapReady msg ≠ some (some info)) →
        on_packet_from_server deconstruct now .WaitingForWorld pkt
          = some ⟨.WaitingForWorld, [(pkt, .ToClient)], none⟩) := by
  constructor
  · intro pkt msg header info hdec htype hmr hw ha
    refine ⟨?_, rfl, rfl, rfl, ?_, ?_⟩
    · simp only [initDownloadingState]
      rw [Nat.mod_eq_of_lt (blockCount_sum_small hw ha), blockCount_eq hw,
        blockCount_eq ha]
    · simp [on_packet_from_server, hdec, htype, hmr,
        transition_to_downloading_world]
    · exact (request_next_blocks_fields _).2.2.1
  · intro pkt hno
    cases hdec : FactorioPacketHeader.decode pkt with
    | none => simp [on_packet_from_server, hdec]
    | some pr =>
        obtain ⟨header, msg⟩ := pr
        by_cases htype : header.packet_type = .ServerToClientHeartbeat
        · cases hmr : tryDecodeMapReady msg with
          | none => simp [on_packet_from_server, hdec, htype, hmr]
          | some o =>
              cases o with
              | none => simp [on_packet_from_server, hdec, htype, hmr]
              | some info => exact absurd hmr (hno header msg hdec htype info)
        · simp [on_packet_from_server, hdec, htype]

/-- A heartbeat packet announcing a 1509-byte world with a 1-byte aux blob. -/
def c1okPkt : List Nat := 7 :: 1 :: (u32ToLe 1509 ++ u32ToLe 1 ++ u32ToLe 0)

/-- The announcement record carried by `c1okPkt`. -/
def c1okInfo : MapReadyForDownloadData := ⟨1509, 1, 0, []⟩

/-- Witness for the amended C1: the 1509-byte announcement yields the
request queue `{0, 1, 2, 3}` and transitions to `DownloadingWorld`. -/
theorem c1_waiting_for_world_witness :
    (initDownloadingState 5 c1okPkt c1okInfo).block_request_queue
        = List.range
            ((c1okInfo.world_size + TRANSFER_BLOCK_SIZE - 1) / TRANSFER_BLOCK_SIZE
              + (c1okInfo.aux_size + TRANSFER_BLOCK_SIZE - 1) / TRANSFER_BLOCK_SIZE)
    ∧ (initDownloadingState 5 c1okPkt c1okInfo).world_info = c1okInfo
    ∧ (initDownloadingState 5 c1okPkt c1okInfo).held_packets = [c1okPkt]
    ∧ (initDownloadingState 5 c1okPkt c1okInfo).inflight_block_requests = []
    ∧ on_packet_from_server (fun _ _ => none) 5 .WaitingForWorld c1okPkt
        = some ⟨.DownloadingWorld
             (request_next_blocks (initDownloadingState 5 c1okPkt c1okInfo)).1,
           (request_next_blocks (initDownloadingState 5 c1okPkt c1okInfo)).2, none⟩
    ∧ (request_next_blocks (initDownloadingState 5 c1okPkt c1okInfo)).1.held_packets
        = [c1okPkt] :=
  (c1_waiting_for_world (fun _ _ => none) 5).1 c1okPkt
    (1 :: (u32ToLe 1509 ++ u32ToLe 1 ++ u32ToLe 0)) ⟨.ServerToClientHeartbeat⟩
    c1okInfo rfl rfl rfl (by decide) (by decide)

/-- Counterexample for C1 as stated: a heartbeat announcing a world of
`2^32 - 1` bytes is captured, but the wrapping `u32` arithmetic of
`transition_to_downloading_world` computes `world_block_count = 0`, so the
request queue is initialized to the empty set instead of
`{0, …, ⌈(2^32-1)/B⌉ - 1}`. -/
theorem c1_counterexample :
    on_packet_from_server (fun _ _ => none) 0 .WaitingForWorld c1pkt
        = some ⟨.DownloadingWorld (initDownloadingState 0 c1pkt c1info), [], none⟩
    ∧ (initDownloadingState 0 c1pkt c1info).block_request_queue = []
    ∧ (initDownloadingState 0 c1pkt c1info).inflight_block_requests = []
    ∧ FactorioPacketHeader.decode c1pkt
        = some (⟨.ServerToClientHeartbeat⟩,
            1 :: (u32ToLe 4294967295 ++ u32ToLe 0 ++ u32ToLe 0))
    ∧ tryDecodeMapReady (1 :: (u32ToLe 4294967295 ++ u32ToLe 0 ++ u32ToLe 0))
        = some (some c1info)
    ∧ (c1info.world_size + TRANSFER_BLOCK_SIZE - 1) / TRANSFER_BLOCK_SIZE
        + (c1info.aux_size + TRANSFER_BLOCK_SIZE - 1) / TRANSFER_BLOCK_SIZE ≠ 0 := by
  exact ⟨by decide, by decide, by decide, by decide, by decide, by decide⟩

theorem handle_transfer_block_bound (d : DeconstructFn) (now : Nat)
    (s : DownloadingWorldState) (tb : TransferBlockPacket)
    (h : s.inflight_block_requests.length ≤ INFLIGHT_BLOCK_REQUEST_LIMIT) :
    phaseInflightBoundOpt (handle_transfer_block d now s tb) := by
  have h1 : (accept_transfer_block now s tb).inflight_block_requests.length
      ≤ INFLIGHT_BLOCK_REQUEST_LIMIT := by
    simp only [accept_transfer_block]
    exact le_trans (length_erase_le _ _) h
  by_cases hemp : (accept_transfer_block now s tb).block_request_queue = []
      ∧ (accept_transfer_block now s tb).inflight_block_requests = []
  · simp only [handle_transfer_block, if_pos hemp]
    exact finalize_world_bound d _
  · simp only [handle_transfer_block, if_neg hemp, phaseInflightBoundOpt]
    exact after_stall_bound now _ _ (request_next_blocks_le h1)

/-- C3: the downloader invariant `|inflight| ≤ W = 16` is preserved by
every step of `on_packet_from_server`, and `request_next_blocks` moves ids
from the queue into the inflight set only while the set is below the limit,
emitting exactly one `TransferBlockRequest` per id moved. -/
theorem c3_inflight_window_bounded :
    (∀ (deconstruct : DeconstructFn) (now : Nat) (phase : ServerProxyPhase)
        (pkt : List Nat),
      phaseInflightBound phase →
        phaseInflightBoundOpt
          (on_packet_from_server deconstruct now phase pkt))
    ∧ (∀ s : DownloadingWorldState, DWStateWF s →
        s.inflight_block_requests.length ≤ INFLIGHT_BLOCK_REQUEST_LIMIT →
        ∃ k, k ≤ s.block_request_queue.length
          ∧ (request_next_blocks s).2
              = (s.block_request_queue.take k).map (fun b =>
                  (TransferBlockRequestPacket.encode_full_packet ⟨b⟩,
                   PacketDirection.ToServer))
          ∧ (request_next_blocks s).1.block_request_queue
              = s.block_request_queue.drop k
          ∧ (request_next_blocks s).1.inflight_block_requests.length
              = s.inflight_block_requests.length + k
          ∧ s.inflight_block_requests.length + k
              ≤ INFLIGHT_BLOCK_REQUEST_LIMIT) := by
  constructor
  · intro d now phase pkt hb
    cases phase with
    | WaitingForWorld =>
        cases hdec : FactorioPacketHeader.decode pkt with
        | none =>
            simp [on_packet_from_server, hdec, phaseInflightBoundOpt,
              phaseInflightBound]
        | some pr =>
            obtain ⟨header, msg⟩ := pr
            by_cases htype : header.packet_type = .ServerToClientHeartbeat
            · cases hmr : tryDecodeMapReady msg with
              | none =>
                  simp [on_packet_from_server, hdec, htype, hmr,
                    phaseInflightBoundOpt, phaseInflightBound]
              | some o =>
                  cases o with
                  | none =>
                      simp [on_packet_from_server, hdec, htype, hmr,
                        phaseInflightBoundOpt, phaseInflightBound]
                  | some info =>
                      have hbt : phaseInflightBound
                          (transition_to_downloading_world now pkt info).phase := by
                        simp only [transition_to_downloading_world,
                          phaseInflightBound]
                        exact request_next_blocks_le (by simp [initDownloadingState])
                      simpa [on_packet_from_server, hdec, htype, hmr,
                        phaseInflightBoundOpt] using hbt
            · simp [on_packet_from_server, hdec, htype, phaseInflightBoundOpt,
                phaseInflightBound]
    | DownloadingWorld s =>
        have hle : s.inflight_block_requests.length ≤ INFLIGHT_BLOCK_REQUEST_LIMIT := hb
        cases hdec : FactorioPacketHeader.decode pkt with
        | none =>
            have hbt := after_stall_bound now s [] hle
            simpa [on_packet_from_server, hdec, phaseInflightBoundOpt] using hbt
        | some pr =>
            obtain ⟨header, msg⟩ := pr
            by_cases htype : header.packet_type = .TransferBlock
            · cases htb : TransferBlockPacket.decode msg with
              | none =>
                  simp only [on_packet_from_server, hdec]
                  rw [if_pos htype, htb]
                  exact hle
              | some tb =>
                  have hbt := handle_transfer_block_bound d now s tb hle
                  simp only [on_packet_from_server, hdec]
                  rw [if_pos htype, htb]
                  exact hbt
            · have hbt := after_stall_bound now
                { s with held_packets := s.held_packets ++ [pkt] } [] hle
              simp only [on_packet_from_server, hdec]
              rw [if_neg htype]
              exact hbt
    | Done => trivial
  · intro s hwf hle
    obtain ⟨k, hk, h1, h2, h3⟩ :=
      fillWindow_spec s.block_request_queue hwf.1 s.inflight_block_requests hwf.2.2
    refine ⟨k, hk, ?_, ?_, ?_, ?_⟩
    · simp only [request_next_blocks]
      rw [h1]
    · simp only [request_next_blocks]
      exact h2
    · simp only [request_next_blocks]
      exact h3
    · rw [← h3]
      exact fillWindow_le hle

/-- Witness for C3: the invariant is preserved on a concrete accepted
block, and the window refill at a concrete mid-download state moves both
queued ids and emits exactly one request for each. -/
theorem c3_inflight_window_bounded_witness :
    phaseInflightBoundOpt
      (on_packet_from_server (fun _ _ => none) 6 (.DownloadingWorld c4state)
        (12 :: (u32ToLe 0 ++ [7, 7, 7])))
    ∧ ∃ k, k ≤ c4state.block_request_queue.length
        ∧ (request_next_blocks c4state).2
            = (c4state.block_request_queue.take k).map (fun b =>
                (TransferBlockRequestPacket.encode_full_packet ⟨b⟩,
                 PacketDirection.ToServer))
        ∧ (request_next_blocks c4state).1.block_request_queue
            = c4state.block_request_queue.drop k
        ∧ (request_next_blocks c4state).1.inflight_block_requests.length
            = c4state.inflight_block_requests.length + k
        ∧ c4state.inflight_block_requests.length + k
            ≤ INFLIGHT_BLOCK_REQUEST_LIMIT :=
  ⟨c3_inflight_window_bounded.1 (fun _ _ => none) 6 (.DownloadingWorld c4state)
      (12 :: (u32ToLe 0 ++ [7, 7, 7])) (by decide),
   c3_inflight_window_bounded.2 c4state (by decide) (by decide)⟩

/-- C2: in `DownloadingWorld`, a packet decoding as `TransferBlock(tb)`
whose id is inflight or queued has the id removed from both sets, the
block appended to `received_blocks` and `last_block_time` refreshed;
afterwards, if both sets are empty the step runs `finalize_world` on the
updated state, and otherwise the inflight window is refilled from the
queue (the ids present in the two sets are preserved and afterwards the
window is full or the queue is exhausted). -/
theorem c2_transfer_block_accounting (deconstruct : DeconstructFn) (now : Nat)
    (s : DownloadingWorldState) (pkt msg : List Nat)
    (header : FactorioPacketHeader) (tb : TransferBlockPacket)
    (hwf : DWStateWF s)
    (hdec : FactorioPacketHeader.decode pkt = some (header, msg))
    (htype : header.packet_type = .TransferBlock)
    (htb : TransferBlockPacket.decode msg = some tb) :
    ((tb.block_id ∈ s.inflight_block_requests
        ∨ tb.block_id ∈ s.block_request_queue) →
      tb.block_id ∉ (accept_transfer_block now s tb).inflight_block_requests
      ∧ tb.block_id ∉ (accept_transfer_block now s tb).block_request_queue
      ∧ (accept_transfer_block now s tb).received_blocks
          = s.received_blocks ++ [tb]
      ∧ (accept_transfer_block now s tb).last_block_time = now)
    ∧ ((accept_transfer_block now s tb).block_request_queue = []
        ∧ (accept_transfer_block now s tb).inflight_block_requests = [] →
      on_packet_from_server deconstruct now (.DownloadingWorld s) pkt
        = finalize_world deconstruct (accept_transfer_block now s tb))
    ∧ (¬((accept_transfer_block now s tb).block_request_queue = []
        ∧ (accept_transfer_block now s tb).inflight_block_requests = []) →
      on_packet_from_server deconstruct now (.DownloadingWorld s) pkt
        = some ⟨.DownloadingWorld
             (request_next_blocks (accept_transfer_block now s tb)).1,
           (request_next_blocks (accept_transfer_block now s tb)).2
             ++ (stall_step now
                  (request_next_blocks (accept_transfer_block now s tb)).1).2,
           none⟩
      ∧ (∀ x : Nat,
          (x ∈ (request_next_blocks
                  (accept_transfer_block now s tb)).1.inflight_block_requests
            ∨ x ∈ (request_next_blocks
                  (accept_transfer_block now s tb)).1.block_request_queue)
          ↔ (x ∈ (accept_transfer_block now s tb).inflight_block_requests
            ∨ x ∈ (accept_transfer_block now s tb).block_request_queue))
      ∧ ((request_next_blocks
            (accept_transfer_block now s tb)).1.block_request_queue = []
          ∨ INFLIGHT_BLOCK_REQUEST_LIMIT ≤
              (request_next_blocks
                (accept_transfer_block now s tb)).1.inflight_block_requests.length)
      ∧ (request_next_blocks (accept_transfer_block now s tb)).1.received_blocks
          = (accept_transfer_block now s tb).received_blocks
      ∧ (request_next_blocks (accept_transfer_block now s tb)).1.last_block_time
          = (accept_transfer_block now s tb).last_block_time) := by
  refine ⟨?_, ?_, ?_⟩
  · intro hacc
    refine ⟨?_, ?_, ?_, ?_⟩
    · show tb.block_id ∉ s.inflight_block_requests.erase tb.block_id
      intro hmem
      exact ((hwf.2.1.mem_erase_iff).mp hmem).1 rfl
    · show tb.block_id ∉
        (if tb.block_id ∈ s.inflight_block_requests then s.block_request_queue
         else s.block_request_queue.erase tb.block_id)
      by_cases hin : tb.block_id ∈ s.inflight_block_requests
      · rw [if_pos hin]
        exact hwf.2.2 tb.block_id hin
      · rw [if_neg hin]
        intro hmem
        exact ((hwf.1.mem_erase_iff).mp hmem).1 rfl
    · show (if tb.block_id ∈ s.inflight_block_requests
            ∨ tb.block_id ∈ s.block_request_queue
          then s.received_blocks ++ [tb] else s.received_blocks)
        = s.received_blocks ++ [tb]
      rw [if_pos hacc]
    · show (if tb.block_id ∈ s.inflight_block_requests
            ∨ tb.block_id ∈ s.block_request_queue
          then now else s.last_block_time) = now
      rw [if_pos hacc]
  · intro hemp
    simp only [on_packet_from_server, hdec]
    rw [if_pos htype, htb]
    simp only [handle_transfer_block, if_pos hemp]
  · intro hemp
    refine ⟨?_, ?_, request_next_blocks_end _, (request_next_blocks_fields _).2.2.2.1,
      (request_next_blocks_fields _).2.2.2.2⟩
    · simp only [on_packet_from_server, hdec]
      rw [if_pos htype, htb]
      simp only [handle_transfer_block, if_neg hemp, after_stall]
      rw [stall_step_fst now _ (request_next_blocks_end _)]
    · intro x
      simp only [request_next_blocks]
      exact fillWindow_union _ _ x

/-- A state waiting for its final block: block 1 inflight, nothing queued. -/
def c2finstate : DownloadingWorldState :=
  { world_info := ⟨0, 0, 0, []⟩, world_block_count := 0,
    held_packets := [], received_blocks := [],
    block_request_queue := [], inflight_block_requests := [1],
    last_block_time := 0 }

/-- Witness for C2: an accepted block is removed from the sets, stored and
time-stamped; the final block triggers `finalize_world`; a non-final block
leads to a window refill. -/
theorem c2_transfer_block_accounting_witness :
    (0 ∉ (accept_transfer_block 6 c4state ⟨0, [7, 7, 7]⟩).inflight_block_requests
      ∧ 0 ∉ (accept_transfer_block 6 c4state ⟨0, [7, 7, 7]⟩).block_request_queue
      ∧ (accept_transfer_block 6 c4state ⟨0, [7, 7, 7]⟩).received_blocks
          = c4state.received_blocks ++ [⟨0, [7, 7, 7]⟩]
      ∧ (accept_transfer_block 6 c4state ⟨0, [7, 7, 7]⟩).last_block_time = 6)
    ∧ on_packet_from_server (fun _ _ => none) 6 (.DownloadingWorld c2finstate)
        (12 :: u32ToLe 1)
        = finalize_world (fun _ _ => none) (accept_transfer_block 6 c2finstate ⟨1, []⟩)
    ∧ on_packet_from_server (fun _ _ => none) 6 (.DownloadingWorld c4state)
        (12 :: (u32ToLe 0 ++ [7, 7, 7]))
        = some ⟨.DownloadingWorld
             (request_next_blocks (accept_transfer_block 6 c4state ⟨0, [7, 7, 7]⟩)).1,
           (request_next_blocks (accept_transfer_block 6 c4state ⟨0, [7, 7, 7]⟩)).2
             ++ (stall_step 6
                  (request_next_blocks
                    (accept_transfer_block 6 c4state ⟨0, [7, 7, 7]⟩)).1).2,
           none⟩ :=
  ⟨(c2_transfer_block_accounting (fun _ _ => none) 6 c4state
      (12 :: (u32ToLe 0 ++ [7, 7, 7])) (u32ToLe 0 ++ [7, 7, 7]) ⟨.TransferBlock⟩
      ⟨0, [7, 7, 7]⟩ (by decide) (by decide) rfl (by decide)).1 (by decide),
   (c2_transfer_block_accounting (fun _ _ => none) 6 c2finstate
      (12 :: u32ToLe 1) (u32ToLe 1) ⟨.TransferBlock⟩ ⟨1, []⟩
      (by decide) (by decide) rfl (by decide)).2.1 (by decide),
   ((c2_transfer_block_accounting (fun _ _ => none) 6 c4state
      (12 :: (u32ToLe 0 ++ [7, 7, 7])) (u32ToLe 0 ++ [7, 7, 7]) ⟨.TransferBlock⟩
      ⟨0, [7, 7, 7]⟩ (by decide) (by decide) rfl (by decide)).2.2 (by decide)).1⟩

/-- C4 (amended): during `DownloadingWorld`, every packet whose header
decodes and whose type is not `TransferBlock` is appended to
`held_packets` and not forwarded to the client; on successful finalize,
every held packet is forwarded to the client with the first byte-exact
occurrence of the old `MapReadyForDownloadData` encoding replaced by the
encoding of the record updated with the reconstructed world's size and
CRC (packets without an occurrence are forwarded unchanged). -/
theorem c4_held_packets_rewritten (deconstruct : DeconstructFn) (now : Nat) :
    (∀ (s : DownloadingWorldState) (pkt msg : List Nat)
        (header : FactorioPacketHeader),
      FactorioPacketHeader.decode pkt = some (header, msg) →
      header.packet_type ≠ .TransferBlock →
        (stall_step now
            { s with held_packets := s.held_packets ++ [pkt] }).1.held_packets
          = s.held_packets ++ [pkt]
        ∧ on_packet_from_server deconstruct now (.DownloadingWorld s) pkt
            = some ⟨.DownloadingWorld
                 (stall_step now
                   { s with held_packets := s.held_packets ++ [pkt] }).1,
               (stall_step now
                 { s with held_packets := s.held_packets ++ [pkt] }).2, none⟩
        ∧ ∀ o ∈ (stall_step now
              { s with held_packets := s.held_packets ++ [pkt] }).2,
            o.2 = PacketDirection.ToServer)
    ∧ (∀ (s : DownloadingWorldState) (desc : FactorioWorldDescription),
      ¬ (concatReceived s).length < aux_data_offset s + s.world_info.aux_size →
      s.world_info.world_size ≤ (concatReceived s).length →
      aux_data_offset s + s.world_info.aux_size < u32Mod →
      deconstruct ((concatReceived s).take s.world_info.world_size)
          (((concatReceived s).drop (aux_data_offset s)).take s.world_info.aux_size)
        = some desc →
        finalize_world deconstruct s
          = some ⟨.Done,
             s.held_packets.map fun p =>
               (rewriteHeld s.world_info.encode
                  ({ s.world_info with
                     world_size := desc.world_size
                     world_crc := desc.reconstructed_crc }
                    : MapReadyForDownloadData).encode p,
                PacketDirection.ToClient),
             some desc⟩)
    ∧ (∀ oldEnc newEnc p : List Nat,
        ((∀ i, (p.drop i).take oldEnc.length ≠ oldEnc) →
          rewriteHeld oldEnc newEnc p = p)
        ∧ (∀ i, firstMatch oldEnc p = some i →
            p = p.take i ++ oldEnc ++ p.drop (i + oldEnc.length)
            ∧ rewriteHeld oldEnc newEnc p
                = p.take i ++ newEnc ++ p.drop (i + oldEnc.length)
            ∧ ∀ j, j < i → (p.drop j).take oldEnc.length ≠ oldEnc)
        ∧ (∀ i, (p.drop i).take oldEnc.length = oldEnc →
            ∃ j, firstMatch oldEnc p = some j)) := by
  refine ⟨?_, ?_, ?_⟩
  · intro s pkt msg header hdec htype
    have hstep : on_packet_from_server deconstruct now (.DownloadingWorld s) pkt
        = some ⟨.DownloadingWorld
             (stall_step now
               { s with held_packets := s.held_packets ++ [pkt] }).1,
           (stall_step now
             { s with held_packets := s.held_packets ++ [pkt] }).2, none⟩ := by
      simp only [on_packet_from_server, hdec]
      rw [if_neg htype]
      simp only [after_stall, List.nil_append]
    refine ⟨?_, hstep, ?_⟩
    · rw [stall_step_held]
    · exact stall_step_out_toServer now _
  · intro s desc hlen hws hwrap hd
    have h1 : bytesSlice 0 s.world_info.world_size (concatReceived s)
        = some ((concatReceived s).take s.world_info.world_size) := by
      simp [bytesSlice, hws]
    have h2 : bytesSlice (aux_data_offset s)
        ((aux_data_offset s + s.world_info.aux_size) % u32Mod) (concatReceived s)
        = some (((concatReceived s).drop (aux_data_offset s)).take
            s.world_info.aux_size) := by
      rw [Nat.mod_eq_of_lt hwrap]
      simp [bytesSlice, Nat.le_of_not_lt hlen]
    simp only [finalize_world, if_neg hlen, h1, h2, hd]
  · intro oldEnc newEnc p
    refine ⟨rewriteHeld_of_no_occurrence, ?_, ?_⟩
    · intro i hfm
      obtain ⟨_, hmin, hdecomp, hrw⟩ := @rewriteHeld_of_occurrence oldEnc newEnc p i hfm
      exact ⟨hdecomp, hrw, hmin⟩
    · intro i hocc
      exact firstMatch_isSome_of_occurrence hocc

/-- A complete download whose single held packet contains the old
announcement encoding twice in a row. -/
def c4dupstate : DownloadingWorldState :=
  { world_info := ⟨3, 2, 0, [9]⟩, world_block_count := 0,
    held_packets := [(⟨3, 2, 0, [9]⟩ : MapReadyForDownloadData).encode
      ++ (⟨3, 2, 0, [9]⟩ : MapReadyForDownloadData).encode],
    received_blocks := [⟨0, [1, 2, 3, 4, 5]⟩],
    block_request_queue := [], inflight_block_requests := [],
    last_block_time := 0 }

/-- Counterexample for C4 as stated: (a) in `DownloadingWorld`, an empty
UDP packet (whose header cannot decode) is neither appended to
`held_packets` nor forwarded — it is simply dropped; (b) on a successful
finalize of a held packet containing the old encoding twice, only the
first occurrence is replaced by the new encoding — the second survives
unchanged, although the claim demands every occurrence be replaced. -/
theorem c4_counterexample :
    (on_packet_from_server (fun _ _ => none) 100 (.DownloadingWorld c4state) []
        = some ⟨.DownloadingWorld c4state, [], none⟩
      ∧ c4state.held_packets ≠ c4state.held_packets ++ [([] : List Nat)])
    ∧ (finalize_world (fun _ _ => some ⟨10, 99, 3⟩) c4dupstate
        = some ⟨.Done,
            [((⟨10, 2, 99, [9]⟩ : MapReadyForDownloadData).encode
                ++ (⟨3, 2, 0, [9]⟩ : MapReadyForDownloadData).encode,
              .ToClient)],
            some ⟨10, 99, 3⟩⟩
      ∧ (⟨10, 2, 99, [9]⟩ : MapReadyForDownloadData).encode
          ≠ (⟨3, 2, 0, [9]⟩ : MapReadyForDownloadData).encode) := by
  exact ⟨⟨by decide, by decide⟩, by decide, by decide⟩

/-- A complete download whose single held packet embeds the old
announcement record. -/
def c4finstate : DownloadingWorldState :=
  { world_info := ⟨3, 2, 0, [9]⟩, world_block_count := 0,
    held_packets := [7 :: 1 :: (⟨3, 2, 0, [9]⟩ : MapReadyForDownloadData).encode],
    received_blocks := [⟨0, [1, 2, 3, 4, 5]⟩],
    block_request_queue := [], inflight_block_requests := [],
    last_block_time := 0 }

/-- Witness for the amended C4: a non-`TransferBlock` packet is held, a
successful finalize forwards the rewritten held packets, and the rewrite
splices the new encoding at the first occurrence. -/
theorem c4_held_packets_rewritten_witness :
    ((stall_step 100
        { c4state with held_packets := c4state.held_packets ++ [[3, 4, 5]] }).1.held_packets
        = c4state.held_packets ++ [[3, 4, 5]]
      ∧ on_packet_from_server (fun _ _ => none) 100
          (.DownloadingWorld c4state) [3, 4, 5]
          = some ⟨.DownloadingWorld
               (stall_step 100
                 { c4state with
                   held_packets := c4state.held_packets ++ [[3, 4, 5]] }).1,
             (stall_step 100
               { c4state with
                 held_packets := c4state.held_packets ++ [[3, 4, 5]] }).2, none⟩
      ∧ ∀ o ∈ (stall_step 100
            { c4state with
              held_packets := c4state.held_packets ++ [[3, 4, 5]] }).2,
          o.2 = PacketDirection.ToServer)
    ∧ finalize_world (fun _ _ => some ⟨10, 99, 3⟩) c4finstate
        = some ⟨.Done,
           c4finstate.held_packets.map fun p =>
             (rewriteHeld c4finstate.world_info.encode
                ({ c4finstate.world_info with
                   world_size := (⟨10, 99, 3⟩ : FactorioWorldDescription).world_size
                   world_crc :=
                     (⟨10, 99, 3⟩ : FactorioWorldDescription).reconstructed_crc }
                  : MapReadyForDownloadData).encode p,
              PacketDirection.ToClient),
           some ⟨10, 99, 3⟩⟩
    ∧ (([0, 1, 2, 3] : List Nat)
         = List.take 1 [0, 1, 2, 3] ++ [1, 2]
             ++ List.drop (1 + ([1, 2] : List Nat).length) [0, 1, 2, 3]
       ∧ rewriteHeld [1, 2] [8, 9] [0, 1, 2, 3]
           = List.take 1 [0, 1, 2, 3] ++ [8, 9]
               ++ List.drop (1 + ([1, 2] : List Nat).length) [0, 1, 2, 3]
       ∧ ∀ j, j < 1 →
           (List.drop j [0, 1, 2, 3]).take ([1, 2] : List Nat).length ≠ [1, 2]) :=
  ⟨(c4_held_packets_rewritten (fun _ _ => none) 100).1 c4state [3, 4, 5] [4, 5]
      ⟨.other 3⟩ (by decide) (by decide),
   (c4_held_packets_rewritten (fun _ _ => some ⟨10, 99, 3⟩) 100).2.1 c4finstate
      ⟨10, 99, 3⟩ (by decide) (by decide) (by decide) rfl,
   ((c4_held_packets_rewritten (fun _ _ => none) 100).2.2 [1, 2] [8, 9]
      [0, 1, 2, 3]).2.1 1 (by decide)⟩

/-- C5 (amended): in `DownloadingWorld`, when more than 100 ms have elapsed
since `last_block_time` at the stall check, the proxy re-sends a
`TransferBlockRequest` for every inflight id and tops up the window — for
undecodable packets, for held (non-`TransferBlock`) packets, and for
decoded `TransferBlock` packets that do not complete the download; the one
exception is a packet with a `TransferBlock` header whose body fails to
decode, which aborts processing before the stall check. -/
theorem c5_stall_resends_inflight (deconstruct : DeconstructFn) (now : Nat)
    (s : DownloadingWorldState) :
    (∀ pkt : List Nat, FactorioPacketHeader.decode pkt = none →
      100 < now - s.last_block_time →
      on_packet_from_server deconstruct now (.DownloadingWorld s) pkt
        = some ⟨.DownloadingWorld (request_next_blocks s).1,
           resendInflight s ++ (request_next_blocks s).2, none⟩)
    ∧ (∀ (pkt msg : List Nat) (header : FactorioPacketHeader),
      FactorioPacketHeader.decode pkt = some (header, msg) →
      header.packet_type ≠ .TransferBlock →
      100 < now - s.last_block_time →
      on_packet_from_server deconstruct now (.DownloadingWorld s) pkt
        = some ⟨.DownloadingWorld
             (request_next_blocks
               { s with held_packets := s.held_packets ++ [pkt] }).1,
           resendInflight { s with held_packets := s.held_packets ++ [pkt] }
             ++ (request_next_blocks
                  { s with held_packets := s.held_packets ++ [pkt] }).2,
           none⟩)
    ∧ (∀ (pkt msg : List Nat) (header : FactorioPacketHeader)
        (tb : TransferBlockPacket),
      FactorioPacketHeader.decode pkt = some (header, msg) →
      header.packet_type = .TransferBlock →
      TransferBlockPacket.decode msg = some tb →
      ¬((accept_transfer_block now s tb).block_request_queue = []
        ∧ (accept_transfer_block now s tb).inflight_block_requests = []) →
      100 < now -
        (request_next_blocks (accept_transfer_block now s tb)).1.last_block_time →
      on_packet_from_server deconstruct now (.DownloadingWorld s) pkt
        = some ⟨.DownloadingWorld
             (request_next_blocks (accept_transfer_block now s tb)).1,
           (request_next_blocks (accept_transfer_block now s tb)).2
             ++ resendInflight
                 (request_next_blocks (accept_transfer_block now s tb)).1,
           none⟩) := by
  refine ⟨?_, ?_, ?_⟩
  · intro pkt hdec hcond
    simp only [on_packet_from_server, hdec]
    simp [after_stall, stall_step, hcond]
  · intro pkt msg header hdec htype hcond
    simp only [on_packet_from_server, hdec]
    rw [if_neg htype]
    simp [after_stall, stall_step, hcond]
  · intro pkt msg header tb hdec htype htb hemp hcond
    simp only [on_packet_from_server, hdec]
    rw [if_pos htype, htb]
    simp only [handle_transfer_block, if_neg hemp, after_stall, stall_step]
    rw [if_pos hcond, request_next_blocks_noop (request_next_blocks_end _)]
    simp

/-- A stalled state with one inflight request and an empty queue. -/
def c5wstate : DownloadingWorldState :=
  { world_info := ⟨1509, 1, 0, []⟩, world_block_count := 3,
    held_packets := [], received_blocks := [],
    block_request_queue := [], inflight_block_requests := [5],
    last_block_time := 0 }

/-- Witness for the amended C5: an undecodable packet and an unknown
`TransferBlock` both trigger the re-send of all inflight requests after
100 ms. -/
theorem c5_stall_resends_inflight_witness :
    on_packet_from_server (fun _ _ => none) 500 (.DownloadingWorld c5wstate) []
        = some ⟨.DownloadingWorld (request_next_blocks c5wstate).1,
           resendInflight c5wstate ++ (request_next_blocks c5wstate).2, none⟩
    ∧ on_packet_from_server (fun _ _ => none) 500 (.DownloadingWorld c4state)
        (12 :: u32ToLe 9)
        = some ⟨.DownloadingWorld
             (request_next_blocks (accept_transfer_block 500 c4state ⟨9, []⟩)).1,
           (request_next_blocks (accept_transfer_block 500 c4state ⟨9, []⟩)).2
             ++ resendInflight
                 (request_next_blocks (accept_transfer_block 500 c4state ⟨9, []⟩)).1,
           none⟩ :=
  ⟨(c5_stall_resends_inflight (fun _ _ => none) 500 c5wstate).1 [] rfl (by decide),
   (c5_stall_resends_inflight (fun _ _ => none) 500 c4state).2.2
      (12 :: u32ToLe 9) (u32ToLe 9) ⟨.TransferBlock⟩ ⟨9, []⟩ (by decide) rfl
      (by decide) (by decide) (by decide)⟩

/-- Counterexample for C5 as stated: a packet with a `TransferBlock` header
but an undecodable body arrives 500 ms after the last block; the claim
demands a re-send for the inflight id 5, but the proxy emits nothing. -/
theorem c5_counterexample :
    100 < 500 - c5state.last_block_time
    ∧ c5state.inflight_block_requests = [5]
    ∧ on_packet_from_server (fun _ _ => none) 500
        (.DownloadingWorld c5state) [12]
        = some ⟨.DownloadingWorld c5state, [], none⟩ := by
  exact ⟨by decide, rfl, by decide⟩
